import Mathlib

/-!
Verification of the metric evaluator in `bayesian_benchmarks/tasks/regression.py`.

The evaluator (`run`) receives a predicted mean and variance (numpy arrays of
rank 2 `[N, D]` or rank 3 `[S, N, D]`), the test targets `Y_test` and the
normalization scale `Y_std`, and returns six metrics: test log-likelihood,
MAE and RMSE, each in normalized and unnormalized scale.

Modelling choices:
- A numpy scalar value is `RV := Option ℝ`: `some x` is the finite real `x`,
  `none` stands for a non-finite value (NaN or an infinity).  All operations in
  the evaluator propagate non-finiteness and none of them can turn a
  non-finite value back into a finite one (the only candidate, `np.clip`, is
  only ever applied to `scipy.stats.norm.logpdf` outputs, which are either NaN
  or finite), so this single absorbing element is a faithful model.
- `scipy.stats.norm.logpdf(x, loc, scale)` is `-z^2/2 - log(sqrt(2*pi)) - log(scale)`
  with `z = (x - loc)/scale` when `scale > 0`, and NaN otherwise.
- A numpy ndarray is a shape together with row-major flat data; elementwise
  binary/ternary operations implement numpy broadcasting.
- The three `assert` statements map to `Except.error RunError.assertionError`;
  a numpy broadcasting failure maps to `Except.error RunError.valueError`.
-/

abbrev RV := Option ℝ

/-- Lift a unary real function to `RV`, propagating non-finite values
(numpy unary ufuncs map NaN to NaN). -/
def rvMap (f : ℝ → ℝ) : RV → RV := Option.map f

/-- Lift a binary real function to `RV`, propagating non-finite values. -/
def rvMap2 (f : ℝ → ℝ → ℝ) : RV → RV → RV
  | some x, some y => some (f x y)
  | _, _ => none

def rvAdd : RV → RV → RV := rvMap2 (fun x y => x + y)

def rvSub : RV → RV → RV := rvMap2 (fun x y => x - y)

/-- Division; a zero divisor gives a non-finite result (NaN or ±inf). -/
noncomputable def rvDiv : RV → RV → RV
  | some x, some y => if y = 0 then none else some (x / y)
  | _, _ => none

/-- numpy `x ** 0.5`: square root for `x ≥ 0`, NaN for negative `x`. -/
noncomputable def rvSqrtPow : RV → RV
  | some x => if 0 ≤ x then some (Real.sqrt x) else none
  | none => none

/-- numpy `log`: defined for positive arguments, NaN / -inf otherwise. -/
noncomputable def rvLog : RV → RV
  | some x => if 0 < x then some (Real.log x) else none
  | none => none

/-- numpy `clip(x, lo, hi) = minimum(hi, maximum(lo, x))`; NaN passes through. -/
def rvClip (lo hi : ℝ) : RV → RV := rvMap (fun x => min hi (max lo x))

/-- numpy sum of a list of values (empty sum is 0, NaN propagates). -/
def rvSum (l : List RV) : RV := l.foldr rvAdd (some 0)

/-- numpy `average` / `mean`: sum divided by element count
(the mean of an empty array is NaN, from the 0/0). -/
noncomputable def rvMean (l : List RV) : RV := rvDiv (rvSum l) (some (l.length : ℝ))

/-- Collect a list of optional values; fails if any entry is `none`. -/
def seqO {α : Type} : List (Option α) → Option (List α)
  | [] => some []
  | none :: _ => none
  | some x :: l => (seqO l).map (fun xs => x :: xs)

/-- `scipy.special.logsumexp` along the stacked axis at one position:
`log (∑ exp xᵢ)`.  An empty reduction is `-inf` and a NaN input gives NaN,
both non-finite. -/
noncomputable def rvLSE (l : List RV) : RV :=
  match seqO l with
  | some xs => if xs = [] then none else some (Real.log ((xs.map Real.exp).sum))
  | none => none

/-- `scipy.stats.norm.logpdf(x, loc, scale)`: the normal log-density
`-((x-loc)/scale)^2/2 - log(sqrt(2*pi)) - log(scale)` for `scale > 0`,
and NaN (invalid parameter) otherwise. -/
noncomputable def normLogpdf (x loc scale : RV) : RV :=
  match x, loc, scale with
  | some y, some mu, some s =>
      if 0 < s then
        some (-(((y - mu) / s) ^ 2) / 2 - Real.log (Real.sqrt (2 * Real.pi)) - Real.log s)
      else none
  | _, _, _ => none

/-- A numpy ndarray: a shape and the row-major flat data. -/
structure NDArray where
  mk ::
  shape : List Nat
  data : List RV

/-- numpy broadcasting of two shapes, aligned from the trailing axis
(arguments and result are reversed shapes). -/
def bshapeRev : List Nat → List Nat → Option (List Nat)
  | [], ys => some ys
  | x :: xs, [] => some (x :: xs)
  | x :: xs, y :: ys =>
      if x = y then (bshapeRev xs ys).map (fun zs => x :: zs)
      else if x = 1 then (bshapeRev xs ys).map (fun zs => y :: zs)
      else if y = 1 then (bshapeRev xs ys).map (fun zs => x :: zs)
      else none

/-- numpy broadcasting of two shapes. -/
def bshape2 (s t : List Nat) : Option (List Nat) :=
  (bshapeRev s.reverse t.reverse).map List.reverse

/-- Pad a shape on the left with 1s to rank `r` (numpy broadcast alignment). -/
def padShape (r : Nat) (s : List Nat) : List Nat := List.replicate (r - s.length) 1 ++ s

/-- Row-major flat index into a broadcast source: first argument is the result
shape, second the (padded) source shape, third the result flat index.  An axis
of extent 1 in the source contributes index 0 (the `%` realizes broadcasting). -/
def bidx : List Nat → List Nat → Nat → Nat
  | _ :: rs, d :: ss, k => ((k / rs.prod) % d) * ss.prod + bidx rs ss (k % rs.prod)
  | _, _, _ => 0

/-- Elementwise binary numpy operation with broadcasting. -/
def ewiseRV2 (f : RV → RV → RV) (a b : NDArray) : Option NDArray :=
  match bshape2 a.shape b.shape with
  | some s => some (NDArray.mk s ((List.range s.prod).map (fun k =>
      f (a.data.getD (bidx s (padShape s.length a.shape) k) none)
        (b.data.getD (bidx s (padShape s.length b.shape) k) none))))
  | none => none

/-- Elementwise ternary numpy operation with broadcasting. -/
def ewiseRV3 (f : RV → RV → RV → RV) (a b c : NDArray) : Option NDArray :=
  match (bshape2 a.shape b.shape).bind (fun s => bshape2 s c.shape) with
  | some s => some (NDArray.mk s ((List.range s.prod).map (fun k =>
      f (a.data.getD (bidx s (padShape s.length a.shape) k) none)
        (b.data.getD (bidx s (padShape s.length b.shape) k) none)
        (c.data.getD (bidx s (padShape s.length c.shape) k) none))))
  | none => none

/-- Multiplication of an array by a scalar (`arr * Y_std`). -/
def NDArray.scaleA (a : NDArray) (c : ℝ) : NDArray :=
  NDArray.mk a.shape (a.data.map (rvMap (fun x => x * c)))

/-- numpy `arr ** 0.5`. -/
noncomputable def NDArray.sqrtA (a : NDArray) : NDArray :=
  NDArray.mk a.shape (a.data.map rvSqrtPow)

/-- numpy `np.clip(arr, lo, hi)`. -/
def NDArray.clipA (lo hi : ℝ) (a : NDArray) : NDArray :=
  NDArray.mk a.shape (a.data.map (rvClip lo hi))

/-- numpy `np.abs(arr)`. -/
def NDArray.absA (a : NDArray) : NDArray :=
  NDArray.mk a.shape (a.data.map (rvMap (fun x => |x|)))

/-- numpy `arr ** 2`. -/
def NDArray.sqA (a : NDArray) : NDArray :=
  NDArray.mk a.shape (a.data.map (rvMap (fun x => x ^ 2)))

/-- numpy `np.average(arr)` over all elements. -/
noncomputable def NDArray.avg (a : NDArray) : RV := rvMean a.data

/-- The slice `arr[n]` of a rank-`(r+1)` array. -/
def NDArray.slice3 (a : NDArray) (n : Nat) : NDArray :=
  match a.shape with
  | _ :: rest => NDArray.mk rest ((a.data.drop (n * rest.prod)).take rest.prod)
  | [] => a

/-- numpy `np.mean(arr, axis=0)`. -/
noncomputable def NDArray.mean0 (a : NDArray) : NDArray :=
  match a.shape with
  | s :: rest => NDArray.mk rest ((List.range rest.prod).map (fun k =>
      rvDiv (rvSum ((List.range s).map (fun n => a.data.getD (n * rest.prod + k) none)))
            (some (s : ℝ))))
  | [] => a

/-- Subtraction of a scalar from an array (`arr - np.log(S)`). -/
def NDArray.subC (a : NDArray) (c : RV) : NDArray :=
  NDArray.mk a.shape (a.data.map (fun x => rvSub x c))

/-- `scipy.special.logsumexp(list_of_arrays, axis=0)`: stack the arrays and
reduce the stacked axis by log-sum-exp. -/
noncomputable def lseStack (ls : List NDArray) : NDArray :=
  NDArray.mk ((ls.headD (NDArray.mk [] [])).shape)
    ((List.range ((ls.headD (NDArray.mk [] [])).shape.prod)).map (fun k =>
      rvLSE (ls.map (fun b => b.data.getD k none))))

/-- The clip lower bound `np.log(1e-12)` from the source. -/
noncomputable def logEps : ℝ := Real.log 1e-12

/-- The clip upper bound `np.log(1.0 - 1e-12)` from the source. -/
noncomputable def log1mEps : ℝ := Real.log (1 - 1e-12)

/-- The clipped per-element Gaussian log-density array
`np.clip(norm.logpdf(Y, loc=mu, scale=scale), log_eps, log_1_minus_eps)`;
every per-element log-density that enters a metric goes through this. -/
noncomputable def clippedL (Y mu scale : NDArray) : Option NDArray :=
  (ewiseRV3 normLogpdf Y mu scale).map (NDArray.clipA logEps log1mEps)

/-- `assert np.all(v >= 0.0)`: every element is a finite nonnegative number
(a NaN comparison is false, so a NaN element also fails the assert). -/
def vAllNonneg (v : NDArray) : Prop := ∀ x ∈ v.data, ∃ r, x = some r ∧ 0 ≤ r

/-- The six metrics returned by the evaluator, in source order. -/
structure Metrics where
  mk ::
  test_loglik : RV
  test_loglik_unnormalized : RV
  test_mae : RV
  test_mae_unnormalized : RV
  test_rmse : RV
  test_rmse_unnormalized : RV

/-- Failure modes: a failed `assert`, or a numpy shape error during computation. -/
inductive RunError where
  | assertionError : RunError
  | valueError : RunError

open Classical in
/-- The metric computation of `run` in `bayesian_benchmarks/tasks/regression.py`
(the pure part: model fitting, argument parsing and database writing are
external collaborators).  `m`, `v` are the predicted mean and variance, `Y` the
test targets and `Ystd` the scalar normalization constant `data.Y_std`. -/
noncomputable def run (m v Y : NDArray) (Ystd : ℝ) : Except RunError Metrics :=
  if m.shape.length = v.shape.length then
    if m.shape.length = 2 ∨ m.shape.length = 3 then
      if vAllNonneg v then
        if m.shape.length = 2 then
          match clippedL Y m v.sqrtA,
                clippedL (Y.scaleA Ystd) (m.scaleA Ystd) ((v.sqrtA).scaleA Ystd),
                ewiseRV2 rvSub Y m with
          | some l, some lu, some d =>
            Except.ok (Metrics.mk l.avg lu.avg
              d.absA.avg (d.scaleA Ystd).absA.avg
              (rvSqrtPow d.sqA.avg) (rvSqrtPow ((d.scaleA Ystd).sqA.avg)))
          | _, _, _ => Except.error RunError.valueError
        else
          match seqO ((List.range (m.shape.headD 0)).map (fun n =>
                  clippedL Y (m.slice3 n) ((v.slice3 n).sqrtA))),
                seqO ((List.range (m.shape.headD 0)).map (fun n =>
                  clippedL (Y.scaleA Ystd) ((m.slice3 n).scaleA Ystd)
                    (((v.slice3 n).sqrtA).scaleA Ystd))),
                ewiseRV2 rvSub Y m.mean0 with
          | some ls, some lus, some d =>
            Except.ok (Metrics.mk
              (((lseStack ls).subC (rvLog (some ((m.shape.headD 0 : Nat) : ℝ)))).avg)
              (((lseStack lus).subC (rvLog (some ((m.shape.headD 0 : Nat) : ℝ)))).avg)
              d.absA.avg (d.scaleA Ystd).absA.avg
              (rvSqrtPow d.sqA.avg) (rvSqrtPow ((d.scaleA Ystd).sqA.avg)))
          | _, _, _ => Except.error RunError.valueError
      else Except.error RunError.assertionError
    else Except.error RunError.assertionError
  else Except.error RunError.assertionError

/-- `True` exactly when the evaluator returned a metrics record. -/
def isOkE {ε α : Type} : Except ε α → Prop
  | Except.ok _ => True
  | Except.error _ => False

/-- All six returned metric values are finite. -/
def metricsAllFinite : Except RunError Metrics → Prop
  | Except.ok r => r.test_loglik.isSome ∧ r.test_loglik_unnormalized.isSome ∧
      r.test_mae.isSome ∧ r.test_mae_unnormalized.isSome ∧
      r.test_rmse.isSome ∧ r.test_rmse_unnormalized.isSome
  | Except.error _ => False

/-! ### Bridging lemmas: broadcasting on equal shapes is pointwise -/

lemma rvMap_none (f : ℝ → ℝ) : rvMap f none = none := rfl

lemma rvSqrtPow_none : rvSqrtPow none = none := rfl

lemma rvClip_none (lo hi : ℝ) : rvClip lo hi none = none := rfl

/-- `getD` with default `none` commutes with mapping a `none`-preserving
function over the data. -/
lemma getD_map_none (f : RV → RV) (hf : f none = none) (l : List RV) (k : Nat) :
    (l.map f).getD k none = f (l.getD k none) := by
  by_cases h : k < l.length
  · rw [List.getD_eq_getElem _ _ (by simpa using h), List.getD_eq_getElem _ _ h,
      List.getElem_map]
  · rw [List.getD_eq_default, List.getD_eq_default _ _ (by omega), hf]
    simpa using h

lemma bshapeRev_self (l : List Nat) : bshapeRev l l = some l := by
  induction l with
  | nil => rfl
  | cons x xs ih => simp [bshapeRev, ih]

lemma bshape2_self (s : List Nat) : bshape2 s s = some s := by
  simp [bshape2, bshapeRev_self]

lemma padShape_self (s : List Nat) : padShape s.length s = s := by
  simp [padShape]

lemma bidx_self (s : List Nat) (k : Nat) (h : k < s.prod) : bidx s s k = k := by
  induction s generalizing k with
  | nil => simp [List.prod_nil] at h; simp [bidx, h]
  | cons d ds ih =>
      have hP : 0 < ds.prod := by
        rcases Nat.eq_zero_or_pos ds.prod with h0 | h0
        · rw [List.prod_cons, h0, Nat.mul_zero] at h; omega
        · exact h0
      have hdiv : k / ds.prod < d := by
        rw [Nat.div_lt_iff_lt_mul hP]
        rw [List.prod_cons] at h
        omega
      have hmod : k % ds.prod < ds.prod := Nat.mod_lt _ hP
      simp only [bidx, Nat.mod_eq_of_lt hdiv, ih _ hmod]
      rw [Nat.mul_comm]
      exact Nat.div_add_mod k ds.prod

/-- On identical shapes, a broadcast binary operation is the pointwise
operation over the flat data. -/
lemma ewiseRV2_same (f : RV → RV → RV) (a b : NDArray) (s : List Nat)
    (ha : a.shape = s) (hb : b.shape = s) :
    ewiseRV2 f a b = some (NDArray.mk s ((List.range s.prod).map (fun k =>
      f (a.data.getD k none) (b.data.getD k none)))) := by
  simp only [ewiseRV2, ha, hb, bshape2_self]
  refine congrArg some (congrArg (NDArray.mk s) (List.map_congr_left ?_))
  intro k hk
  rw [List.mem_range] at hk
  rw [padShape_self, bidx_self s k hk]

/-- On identical shapes, a broadcast ternary operation is the pointwise
operation over the flat data. -/
lemma ewiseRV3_same (f : RV → RV → RV → RV) (a b c : NDArray) (s : List Nat)
    (ha : a.shape = s) (hb : b.shape = s) (hc : c.shape = s) :
    ewiseRV3 f a b c = some (NDArray.mk s ((List.range s.prod).map (fun k =>
      f (a.data.getD k none) (b.data.getD k none) (c.data.getD k none)))) := by
  simp only [ewiseRV3, ha, hb, hc, bshape2_self, Option.some_bind]
  refine congrArg some (congrArg (NDArray.mk s) (List.map_congr_left ?_))
  intro k hk
  rw [List.mem_range] at hk
  rw [padShape_self, bidx_self s k hk]

lemma scaleA_getD (a : NDArray) (c : ℝ) (k : Nat) :
    (a.scaleA c).data.getD k none = rvMap (fun x => x * c) (a.data.getD k none) :=
  getD_map_none _ rfl _ _

lemma sqrtA_getD (a : NDArray) (k : Nat) :
    a.sqrtA.data.getD k none = rvSqrtPow (a.data.getD k none) :=
  getD_map_none _ rfl _ _

lemma slice3_shape (a : NDArray) (n S : Nat) (rest : List Nat)
    (h : a.shape = S :: rest) : (a.slice3 n).shape = rest := by
  simp [NDArray.slice3, h]

lemma slice3_getD (a : NDArray) (n S : Nat) (rest : List Nat)
    (h : a.shape = S :: rest) (hlen : a.data.length = S * rest.prod)
    (hn : n < S) (k : Nat) (hk : k < rest.prod) :
    (a.slice3 n).data.getD k none = a.data.getD (n * rest.prod + k) none := by
  simp only [NDArray.slice3, h]
  have hlt : n * rest.prod + k < a.data.length := by
    rw [hlen]
    have : n * rest.prod + rest.prod ≤ S * rest.prod := by
      have := Nat.succ_le_of_lt hn
      calc n * rest.prod + rest.prod = (n + 1) * rest.prod := by ring
        _ ≤ S * rest.prod := Nat.mul_le_mul_right _ this
    omega
  have hdlen : k < ((a.data.drop (n * rest.prod)).take rest.prod).length := by
    simp [List.length_take, List.length_drop]
    omega
  rw [List.getD_eq_getElem _ _ hdlen, List.getD_eq_getElem _ _ hlt,
    List.getElem_take, List.getElem_drop]

/-- If collecting succeeds, the original list is the collected one with `some`
applied to each entry. -/
lemma seqO_eq_some {α : Type} (l : List (Option α)) (xs : List α)
    (h : seqO l = some xs) : l = xs.map some := by
  induction l generalizing xs with
  | nil =>
      simp only [seqO, Option.some.injEq] at h
      subst h
      rfl
  | cons x t ih =>
      cases x with
      | none => simp [seqO] at h
      | some y =>
          simp only [seqO] at h
          cases hyt : seqO t with
          | none => rw [hyt] at h; simp at h
          | some ys =>
              rw [hyt] at h
              simp only [Option.map_some', Option.some.injEq] at h
              subst h
              simp [ih ys hyt]

/-- Collecting a list of `some`s succeeds with the underlying list. -/
lemma seqO_map_some_eq {α β : Type} (l : List β) (f : β → α) :
    seqO (l.map (fun x => some (f x))) = some (l.map f) := by
  induction l with
  | nil => rfl
  | cons x t ih => simp [seqO, ih]

lemma sqrtA_shape (a : NDArray) : a.sqrtA.shape = a.shape := rfl

lemma scaleA_shape (a : NDArray) (c : ℝ) : (a.scaleA c).shape = a.shape := rfl

lemma prod_pair (N D : Nat) : ([N, D] : List Nat).prod = N * D := by simp

/-- Closed form of the clipped log-density array on matching shapes. -/
lemma clippedL_same (Y mu sc : NDArray) (s : List Nat)
    (hY : Y.shape = s) (hmu : mu.shape = s) (hsc : sc.shape = s) :
    clippedL Y mu sc = some (NDArray.mk s ((List.range s.prod).map (fun k =>
      rvClip logEps log1mEps
        (normLogpdf (Y.data.getD k none) (mu.data.getD k none) (sc.data.getD k none))))) := by
  rw [clippedL, ewiseRV3_same normLogpdf Y mu sc s hY hmu hsc]
  simp only [Option.map_some', NDArray.clipA, List.map_map]
  rfl

lemma getD_map_rvMap (f : ℝ → ℝ) (l : List RV) (k : Nat) :
    (l.map (rvMap f)).getD k none = rvMap f (l.getD k none) :=
  getD_map_none _ rfl l k

lemma getD_map_rvSqrtPow (l : List RV) (k : Nat) :
    (l.map rvSqrtPow).getD k none = rvSqrtPow (l.getD k none) :=
  getD_map_none _ rfl l k

/-- Closed form of the point-prediction (rank 2) path of `run` on matching
shapes: each metric as an explicit per-index reduction. -/
lemma run2_closed (m v Y : NDArray) (Ystd : ℝ) (N D : Nat)
    (hm : m.shape = [N, D]) (hv : v.shape = [N, D]) (hY : Y.shape = [N, D])
    (hvn : vAllNonneg v) :
    run m v Y Ystd = Except.ok (Metrics.mk
      (rvMean ((List.range (N * D)).map (fun k => rvClip logEps log1mEps
        (normLogpdf (Y.data.getD k none) (m.data.getD k none)
          (rvSqrtPow (v.data.getD k none))))))
      (rvMean ((List.range (N * D)).map (fun k => rvClip logEps log1mEps
        (normLogpdf (rvMap (fun x => x * Ystd) (Y.data.getD k none))
          (rvMap (fun x => x * Ystd) (m.data.getD k none))
          (rvMap (fun x => x * Ystd) (rvSqrtPow (v.data.getD k none)))))))
      (rvMean ((List.range (N * D)).map (fun k => rvMap (fun x => |x|)
        (rvSub (Y.data.getD k none) (m.data.getD k none)))))
      (rvMean ((List.range (N * D)).map (fun k => rvMap (fun x => |x|)
        (rvMap (fun x => x * Ystd) (rvSub (Y.data.getD k none) (m.data.getD k none))))))
      (rvSqrtPow (rvMean ((List.range (N * D)).map (fun k => rvMap (fun x => x ^ 2)
        (rvSub (Y.data.getD k none) (m.data.getD k none))))))
      (rvSqrtPow (rvMean ((List.range (N * D)).map (fun k => rvMap (fun x => x ^ 2)
        (rvMap (fun x => x * Ystd) (rvSub (Y.data.getD k none) (m.data.getD k none)))))))) := by
  have h1 : m.shape.length = v.shape.length := by rw [hm, hv]
  have h4 : m.shape.length = 2 := by rw [hm]; rfl
  have hcl : clippedL Y m v.sqrtA = some (NDArray.mk [N, D]
      ((List.range (([N, D] : List Nat).prod)).map (fun k =>
      rvClip logEps log1mEps (normLogpdf (Y.data.getD k none) (m.data.getD k none)
        (v.sqrtA.data.getD k none))))) :=
    clippedL_same Y m v.sqrtA [N, D] hY hm (by rw [sqrtA_shape, hv])
  have hclu : clippedL (Y.scaleA Ystd) (m.scaleA Ystd) ((v.sqrtA).scaleA Ystd) =
      some (NDArray.mk [N, D] ((List.range (([N, D] : List Nat).prod)).map (fun k =>
      rvClip logEps log1mEps (normLogpdf ((Y.scaleA Ystd).data.getD k none)
        ((m.scaleA Ystd).data.getD k none) (((v.sqrtA).scaleA Ystd).data.getD k none))))) :=
    clippedL_same _ _ _ [N, D] (by rw [scaleA_shape, hY]) (by rw [scaleA_shape, hm])
      (by rw [scaleA_shape, sqrtA_shape, hv])
  have hd : ewiseRV2 rvSub Y m = some (NDArray.mk [N, D]
      ((List.range (([N, D] : List Nat).prod)).map (fun k =>
      rvSub (Y.data.getD k none) (m.data.getD k none)))) :=
    ewiseRV2_same rvSub Y m [N, D] hY hm
  unfold run
  rw [if_pos h1, if_pos (Or.inl h4), if_pos hvn, if_pos h4, hcl, hclu, hd]
  simp only [Except.ok.injEq, Metrics.mk.injEq, NDArray.avg, NDArray.absA, NDArray.scaleA,
    NDArray.sqA, NDArray.sqrtA, prod_pair]
  refine ⟨?_, ?_, ?_, ?_, ?_, ?_⟩
  · refine congrArg rvMean (List.map_congr_left ?_)
    intro k _
    rw [getD_map_rvSqrtPow]
  · refine congrArg rvMean (List.map_congr_left ?_)
    intro k _
    simp only [getD_map_rvMap, getD_map_rvSqrtPow]
  · simp only [List.map_map]
    rfl
  · simp only [List.map_map]
    rfl
  · simp only [List.map_map]
    rfl
  · simp only [List.map_map]
    rfl

lemma getD_range_map (g : Nat → RV) (P k : Nat) (hk : k < P) :
    ((List.range P).map g).getD k none = g k := by
  rw [List.getD_eq_getElem _ _ (by simpa using hk), List.getElem_map, List.getElem_range]

lemma headD_map_range {α : Type} (A : Nat → α) (S : Nat) (hS : 1 ≤ S) (d : α) :
    ((List.range S).map A).headD d = A 0 := by
  obtain ⟨T, rfl⟩ : ∃ T, S = T + 1 := ⟨S - 1, by omega⟩
  rw [List.range_succ_eq_map]
  rfl

/-- Closed form of the stacked log-sum-exp over a nonempty family of arrays. -/
lemma lseStack_closed (A : Nat → NDArray) (S : Nat) (hS : 1 ≤ S) (sh : List Nat)
    (hsh : (A 0).shape = sh) :
    lseStack ((List.range S).map A) = NDArray.mk sh ((List.range sh.prod).map (fun k =>
      rvLSE ((List.range S).map (fun n => (A n).data.getD k none)))) := by
  rw [lseStack, headD_map_range A S hS, hsh]
  simp only [List.map_map]
  rfl

/-- Closed form of `np.mean(a, axis=0)`. -/
lemma mean0_closed (a : NDArray) (S : Nat) (rest : List Nat) (h : a.shape = S :: rest) :
    a.mean0 = NDArray.mk rest ((List.range rest.prod).map (fun k =>
      rvDiv (rvSum ((List.range S).map (fun n => a.data.getD (n * rest.prod + k) none)))
        (some (S : ℝ)))) := by
  simp [NDArray.mean0, h]

/-- The mixture test log-likelihood as the spec words it: for each of the
`N*D` elements, reduce the `S` per-component clipped Gaussian log-densities of
`Y_test` by log-sum-exp and subtract `log S`, then take the arithmetic mean
over all elements.  (`ND = N*D`; component `s` of `m`/`v` starts at flat
offset `s*ND`.) -/
noncomputable def mixSpec (m v Y : NDArray) (S ND : Nat) : RV :=
  rvMean ((List.range ND).map (fun k =>
    rvSub (rvLSE ((List.range S).map (fun s => rvClip logEps log1mEps
        (normLogpdf (Y.data.getD k none) (m.data.getD (s * ND + k) none)
          (rvSqrtPow (v.data.getD (s * ND + k) none))))))
      (rvLog (some (S : ℝ)))))

/-- The unnormalized mixture test log-likelihood as the spec words it:
identical to `mixSpec` but from the de-normalized per-component clipped
log-densities (targets, means and scales multiplied by `Y_std`). -/
noncomputable def mixSpecU (m v Y : NDArray) (Ystd : ℝ) (S ND : Nat) : RV :=
  rvMean ((List.range ND).map (fun k =>
    rvSub (rvLSE ((List.range S).map (fun s => rvClip logEps log1mEps
        (normLogpdf (rvMap (fun x => x * Ystd) (Y.data.getD k none))
          (rvMap (fun x => x * Ystd) (m.data.getD (s * ND + k) none))
          (rvMap (fun x => x * Ystd) (rvSqrtPow (v.data.getD (s * ND + k) none)))))))
      (rvLog (some (S : ℝ)))))

/-- Closed form of the ensemble (rank 3) path of `run` on matching shapes. -/
lemma run3_closed (m v Y : NDArray) (Ystd : ℝ) (S N D : Nat)
    (hm : m.shape = [S, N, D]) (hv : v.shape = [S, N, D]) (hY : Y.shape = [N, D])
    (hml : m.data.length = S * (N * D)) (hvl : v.data.length = S * (N * D))
    (hvn : vAllNonneg v) (hS : 1 ≤ S) :
    run m v Y Ystd = Except.ok (Metrics.mk
      (mixSpec m v Y S (N * D))
      (mixSpecU m v Y Ystd S (N * D))
      (rvMean ((List.range (N * D)).map (fun k => rvMap (fun x => |x|)
        (rvSub (Y.data.getD k none)
          (rvDiv (rvSum ((List.range S).map (fun n => m.data.getD (n * (N * D) + k) none)))
            (some (S : ℝ)))))))
      (rvMean ((List.range (N * D)).map (fun k => rvMap (fun x => |x|)
        (rvMap (fun x => x * Ystd) (rvSub (Y.data.getD k none)
          (rvDiv (rvSum ((List.range S).map (fun n => m.data.getD (n * (N * D) + k) none)))
            (some (S : ℝ))))))))
      (rvSqrtPow (rvMean ((List.range (N * D)).map (fun k => rvMap (fun x => x ^ 2)
        (rvSub (Y.data.getD k none)
          (rvDiv (rvSum ((List.range S).map (fun n => m.data.getD (n * (N * D) + k) none)))
            (some (S : ℝ))))))))
      (rvSqrtPow (rvMean ((List.range (N * D)).map (fun k => rvMap (fun x => x ^ 2)
        (rvMap (fun x => x * Ystd) (rvSub (Y.data.getD k none)
          (rvDiv (rvSum ((List.range S).map (fun n => m.data.getD (n * (N * D) + k) none)))
            (some (S : ℝ)))))))))) := by
  have h1 : m.shape.length = v.shape.length := by rw [hm, hv]
  have h3 : m.shape.length = 3 := by rw [hm]; rfl
  have h4 : ¬ m.shape.length = 2 := by rw [h3]; omega
  have hhd : m.shape.headD 0 = S := by rw [hm]; rfl
  have hml' : m.data.length = S * ([N, D] : List Nat).prod := by rw [prod_pair]; exact hml
  have hvl' : v.data.length = S * ([N, D] : List Nat).prod := by rw [prod_pair]; exact hvl
  have hsl : ∀ n, n < S → clippedL Y (m.slice3 n) ((v.slice3 n).sqrtA)
      = some (NDArray.mk [N, D] ((List.range (N * D)).map (fun k =>
        rvClip logEps log1mEps (normLogpdf (Y.data.getD k none)
          (m.data.getD (n * (N * D) + k) none)
          (rvSqrtPow (v.data.getD (n * (N * D) + k) none)))))) := by
    intro n hn
    rw [clippedL_same Y (m.slice3 n) ((v.slice3 n).sqrtA) [N, D] hY
      (slice3_shape m n S [N, D] hm)
      (by rw [sqrtA_shape, slice3_shape v n S [N, D] hv])]
    refine congrArg some (congrArg (NDArray.mk [N, D]) ?_)
    rw [prod_pair]
    refine List.map_congr_left ?_
    intro k hk
    rw [List.mem_range] at hk
    have hk' : k < ([N, D] : List Nat).prod := by rw [prod_pair]; exact hk
    simp only [NDArray.sqrtA]
    simp only [getD_map_rvSqrtPow]
    rw [slice3_getD m n S [N, D] hm hml' hn k hk',
      slice3_getD v n S [N, D] hv hvl' hn k hk', prod_pair]
  have hslu : ∀ n, n < S →
      clippedL (Y.scaleA Ystd) ((m.slice3 n).scaleA Ystd) (((v.slice3 n).sqrtA).scaleA Ystd)
      = some (NDArray.mk [N, D] ((List.range (N * D)).map (fun k =>
        rvClip logEps log1mEps (normLogpdf
          (rvMap (fun x => x * Ystd) (Y.data.getD k none))
          (rvMap (fun x => x * Ystd) (m.data.getD (n * (N * D) + k) none))
          (rvMap (fun x => x * Ystd)
            (rvSqrtPow (v.data.getD (n * (N * D) + k) none))))))) := by
    intro n hn
    rw [clippedL_same _ _ _ [N, D] (by rw [scaleA_shape, hY])
      (by rw [scaleA_shape, slice3_shape m n S [N, D] hm])
      (by rw [scaleA_shape, sqrtA_shape, slice3_shape v n S [N, D] hv])]
    refine congrArg some (congrArg (NDArray.mk [N, D]) ?_)
    rw [prod_pair]
    refine List.map_congr_left ?_
    intro k hk
    rw [List.mem_range] at hk
    have hk' : k < ([N, D] : List Nat).prod := by rw [prod_pair]; exact hk
    simp only [NDArray.scaleA, NDArray.sqrtA]
    simp only [getD_map_rvMap, getD_map_rvSqrtPow]
    rw [slice3_getD m n S [N, D] hm hml' hn k hk',
      slice3_getD v n S [N, D] hv hvl' hn k hk', prod_pair]
  have hmapl : (List.range S).map (fun n => clippedL Y (m.slice3 n) ((v.slice3 n).sqrtA))
      = (List.range S).map (fun n => some (NDArray.mk [N, D] ((List.range (N * D)).map (fun k =>
        rvClip logEps log1mEps (normLogpdf (Y.data.getD k none)
          (m.data.getD (n * (N * D) + k) none)
          (rvSqrtPow (v.data.getD (n * (N * D) + k) none))))))) :=
    List.map_congr_left (fun n hn => hsl n (List.mem_range.mp hn))
  have hmaplu : (List.range S).map (fun n =>
        clippedL (Y.scaleA Ystd) ((m.slice3 n).scaleA Ystd) (((v.slice3 n).sqrtA).scaleA Ystd))
      = (List.range S).map (fun n => some (NDArray.mk [N, D] ((List.range (N * D)).map (fun k =>
        rvClip logEps log1mEps (normLogpdf
          (rvMap (fun x => x * Ystd) (Y.data.getD k none))
          (rvMap (fun x => x * Ystd) (m.data.getD (n * (N * D) + k) none))
          (rvMap (fun x => x * Ystd)
            (rvSqrtPow (v.data.getD (n * (N * D) + k) none)))))))) :=
    List.map_congr_left (fun n hn => hslu n (List.mem_range.mp hn))
  have hd3 : ewiseRV2 rvSub Y m.mean0 = some (NDArray.mk [N, D]
      ((List.range (([N, D] : List Nat).prod)).map (fun k =>
        rvSub (Y.data.getD k none) (m.mean0.data.getD k none)))) :=
    ewiseRV2_same rvSub Y m.mean0 [N, D] hY
      (by rw [mean0_closed m S [N, D] hm])
  have hls1 := lseStack_closed (fun n => NDArray.mk [N, D] ((List.range (N * D)).map (fun k =>
      rvClip logEps log1mEps (normLogpdf (Y.data.getD k none)
        (m.data.getD (n * (N * D) + k) none)
        (rvSqrtPow (v.data.getD (n * (N * D) + k) none)))))) S hS [N, D] rfl
  have hls2 := lseStack_closed (fun n => NDArray.mk [N, D] ((List.range (N * D)).map (fun k =>
      rvClip logEps log1mEps (normLogpdf
        (rvMap (fun x => x * Ystd) (Y.data.getD k none))
        (rvMap (fun x => x * Ystd) (m.data.getD (n * (N * D) + k) none))
        (rvMap (fun x => x * Ystd)
          (rvSqrtPow (v.data.getD (n * (N * D) + k) none))))))) S hS [N, D] rfl
  unfold run
  rw [if_pos h1, if_pos (Or.inr h3), if_pos hvn, if_neg h4, hhd, hmapl, hmaplu,
    seqO_map_some_eq, seqO_map_some_eq, hd3]
  simp only [Except.ok.injEq, Metrics.mk.injEq, NDArray.avg, NDArray.absA, NDArray.scaleA,
    NDArray.sqA, NDArray.subC, prod_pair, mixSpec, mixSpecU]
  refine ⟨?_, ?_, ?_, ?_, ?_, ?_⟩
  · rw [hls1]
    simp only [prod_pair, List.map_map]
    refine congrArg rvMean (List.map_congr_left ?_)
    intro k hk
    rw [List.mem_range] at hk
    simp only [Function.comp_apply]
    refine congrArg (fun z => rvSub z (rvLog (some (S : ℝ)))) ?_
    refine congrArg rvLSE (List.map_congr_left ?_)
    intro n _
    exact getD_range_map _ _ _ hk
  · rw [hls2]
    simp only [prod_pair, List.map_map]
    refine congrArg rvMean (List.map_congr_left ?_)
    intro k hk
    rw [List.mem_range] at hk
    simp only [Function.comp_apply]
    refine congrArg (fun z => rvSub z (rvLog (some (S : ℝ)))) ?_
    refine congrArg rvLSE (List.map_congr_left ?_)
    intro n _
    exact getD_range_map _ _ _ hk
  · simp only [List.map_map]
    refine congrArg rvMean (List.map_congr_left ?_)
    intro k hk
    rw [List.mem_range] at hk
    simp only [Function.comp_apply]
    rw [mean0_closed m S [N, D] hm]
    simp only [prod_pair]
    rw [getD_range_map _ _ _ hk]
  · simp only [List.map_map]
    refine congrArg rvMean (List.map_congr_left ?_)
    intro k hk
    rw [List.mem_range] at hk
    simp only [Function.comp_apply]
    rw [mean0_closed m S [N, D] hm]
    simp only [prod_pair]
    rw [getD_range_map _ _ _ hk]
  · refine congrArg rvSqrtPow ?_
    simp only [List.map_map]
    refine congrArg rvMean (List.map_congr_left ?_)
    intro k hk
    rw [List.mem_range] at hk
    simp only [Function.comp_apply]
    rw [mean0_closed m S [N, D] hm]
    simp only [prod_pair]
    rw [getD_range_map _ _ _ hk]
  · refine congrArg rvSqrtPow ?_
    simp only [List.map_map]
    refine congrArg rvMean (List.map_congr_left ?_)
    intro k hk
    rw [List.mem_range] at hk
    simp only [Function.comp_apply]
    rw [mean0_closed m S [N, D] hm]
    simp only [prod_pair]
    rw [getD_range_map _ _ _ hk]

/-! ### Value-level facts about the reductions -/

lemma eps_lt_one_sub_eps : (1e-12 : ℝ) ≤ 1 - 1e-12 := by norm_num

lemma logEps_le_log1mEps : logEps ≤ log1mEps := by
  rw [logEps, log1mEps]
  exact Real.log_le_log (by norm_num) eps_lt_one_sub_eps

lemma rvClip_some_bounds (lo hi : ℝ) (h : lo ≤ hi) (y : RV) (r : ℝ)
    (hr : rvClip lo hi y = some r) : lo ≤ r ∧ r ≤ hi := by
  cases y with
  | none => simp [rvClip, rvMap] at hr
  | some a =>
      simp only [rvClip, rvMap, Option.map_some', Option.some.injEq] at hr
      subst hr
      exact ⟨le_min h (le_max_left _ _), min_le_left _ _⟩

lemma rvSum_cons (x : RV) (t : List RV) : rvSum (x :: t) = rvAdd x (rvSum t) := rfl

lemma rvSum_some_forall (l : List RV) (u : ℝ) (h : rvSum l = some u) :
    ∀ x ∈ l, ∃ r, x = some r := by
  induction l generalizing u with
  | nil => simp
  | cons x t ih =>
      rw [rvSum_cons] at h
      cases x with
      | none => simp [rvAdd, rvMap2] at h
      | some a =>
          cases ht : rvSum t with
          | none => rw [ht] at h; simp [rvAdd, rvMap2] at h
          | some w =>
              intro y hy
              rcases List.mem_cons.mp hy with rfl | hyt
              · exact ⟨a, rfl⟩
              · exact ih w ht y hyt

lemma rvSum_all_some (l : List RV) (h : ∀ x ∈ l, ∃ r, x = some r) :
    ∃ u, rvSum l = some u := by
  induction l with
  | nil => exact ⟨0, rfl⟩
  | cons x t ih =>
      obtain ⟨a, ha⟩ := h x (List.mem_cons_self x t)
      obtain ⟨w, hw⟩ := ih (fun y hy => h y (List.mem_cons_of_mem x hy))
      exact ⟨a + w, by rw [rvSum_cons, ha, hw]; rfl⟩

lemma rvSum_bounds (l : List RV) (lo hi u : ℝ)
    (hb : ∀ x ∈ l, ∀ r, x = some r → lo ≤ r ∧ r ≤ hi) (h : rvSum l = some u) :
    (l.length : ℝ) * lo ≤ u ∧ u ≤ (l.length : ℝ) * hi := by
  induction l generalizing u with
  | nil =>
      simp only [rvSum, List.foldr_nil, Option.some.injEq] at h
      subst h
      simp
  | cons x t ih =>
      rw [rvSum_cons] at h
      cases x with
      | none => simp [rvAdd, rvMap2] at h
      | some a =>
          cases ht : rvSum t with
          | none => rw [ht] at h; simp [rvAdd, rvMap2] at h
          | some w =>
              rw [ht] at h
              simp only [rvAdd, rvMap2, Option.some.injEq] at h
              obtain ⟨h1, h2⟩ := hb (some a) (List.mem_cons_self _ _) a rfl
              obtain ⟨h3, h4⟩ := ih w (fun y hy r hr =>
                hb y (List.mem_cons_of_mem _ hy) r hr) ht
              subst h
              constructor
              · simp only [List.length_cons]
                push_cast
                nlinarith
              · simp only [List.length_cons]
                push_cast
                nlinarith

lemma rvSum_lower (l : List RV) (lo u : ℝ)
    (hb : ∀ x ∈ l, ∀ r, x = some r → lo ≤ r) (h : rvSum l = some u) :
    (l.length : ℝ) * lo ≤ u := by
  induction l generalizing u with
  | nil =>
      simp only [rvSum, List.foldr_nil, Option.some.injEq] at h
      subst h
      simp
  | cons x t ih =>
      rw [rvSum_cons] at h
      cases x with
      | none => simp [rvAdd, rvMap2] at h
      | some a =>
          cases ht : rvSum t with
          | none => rw [ht] at h; simp [rvAdd, rvMap2] at h
          | some w =>
              rw [ht] at h
              simp only [rvAdd, rvMap2, Option.some.injEq] at h
              have h1 := hb (some a) (List.mem_cons_self _ _) a rfl
              have h3 := ih w (fun y hy r hr => hb y (List.mem_cons_of_mem _ hy) r hr) ht
              subst h
              simp only [List.length_cons]
              push_cast
              nlinarith

lemma rvMean_bounds (l : List RV) (lo hi t : ℝ)
    (hb : ∀ x ∈ l, ∀ r, x = some r → lo ≤ r ∧ r ≤ hi) (h : rvMean l = some t) :
    lo ≤ t ∧ t ≤ hi := by
  rw [rvMean] at h
  cases hu : rvSum l with
  | none => rw [hu] at h; simp [rvDiv] at h
  | some u =>
      rw [hu] at h
      simp only [rvDiv] at h
      by_cases hL : ((l.length : Nat) : ℝ) = 0
      · rw [if_pos hL] at h; cases h
      · rw [if_neg hL] at h
        simp only [Option.some.injEq] at h
        subst h
        have hLpos : (0 : ℝ) < (l.length : ℝ) := by
          have : (0 : ℝ) ≤ (l.length : ℝ) := Nat.cast_nonneg _
          rcases this.lt_or_eq with hlt | heq
          · exact hlt
          · exact absurd heq.symm hL
        obtain ⟨hl, hr⟩ := rvSum_bounds l lo hi u hb hu
        constructor
        · rw [le_div_iff hLpos]
          linarith [hl]
        · rw [div_le_iff hLpos]
          linarith [hr]

lemma rvMean_some (l : List RV) (hne : l ≠ []) (h : ∀ x ∈ l, ∃ r, x = some r) :
    ∃ t, rvMean l = some t := by
  obtain ⟨u, hu⟩ := rvSum_all_some l h
  have hL : ((l.length : Nat) : ℝ) ≠ 0 := by
    simp only [ne_eq, Nat.cast_eq_zero, List.length_eq_zero]
    exact hne
  exact ⟨u / l.length, by rw [rvMean, hu, rvDiv, if_neg hL]⟩

lemma rvMean_nonneg (l : List RV) (t : ℝ)
    (hb : ∀ x ∈ l, ∀ r, x = some r → 0 ≤ r) (h : rvMean l = some t) : 0 ≤ t := by
  rw [rvMean] at h
  cases hu : rvSum l with
  | none => rw [hu] at h; simp [rvDiv] at h
  | some u =>
      rw [hu] at h
      simp only [rvDiv] at h
      by_cases hL : ((l.length : Nat) : ℝ) = 0
      · rw [if_pos hL] at h; cases h
      · rw [if_neg hL] at h
        simp only [Option.some.injEq] at h
        subst h
        have hLpos : (0 : ℝ) < (l.length : ℝ) := by
          have : (0 : ℝ) ≤ (l.length : ℝ) := Nat.cast_nonneg _
          rcases this.lt_or_eq with hlt | heq
          · exact hlt
          · exact absurd heq.symm hL
        have := rvSum_lower l 0 u hb hu
        rw [mul_zero] at this
        positivity

lemma seqO_replicate_some (S : Nat) (x : ℝ) :
    seqO (List.replicate S (some x : RV)) = some (List.replicate S x) := by
  induction S with
  | zero => rfl
  | succ T ih => simp [List.replicate_succ, seqO, ih]

lemma seqO_replicate_none (S : Nat) (hS : 1 ≤ S) :
    seqO (List.replicate S (none : RV)) = none := by
  obtain ⟨T, rfl⟩ : ∃ T, S = T + 1 := ⟨S - 1, by omega⟩
  simp [List.replicate_succ, seqO]

/-- Log-sum-exp of `S ≥ 1` copies of one value, minus `log S`, is that value
(for a NaN input, both sides are non-finite). -/
lemma lse_collapse (S : Nat) (hS : 1 ≤ S) (c : RV) :
    rvSub (rvLSE (List.replicate S c)) (rvLog (some (S : ℝ))) = c := by
  have hSpos : (0 : ℝ) < (S : ℝ) := by exact_mod_cast hS
  cases c with
  | none =>
      rw [rvLSE, seqO_replicate_none S hS]
      rfl
  | some x =>
      have hs := seqO_replicate_some S x
      have hne : List.replicate S x ≠ [] := by
        simp only [ne_eq, List.replicate_eq_nil]
        omega
      rw [rvLSE]
      simp only [hs]
      rw [if_neg hne]
      have hsum : ((List.replicate S x).map Real.exp).sum = (S : ℝ) * Real.exp x := by
        rw [List.map_replicate, List.sum_replicate, nsmul_eq_mul]
      rw [hsum, Real.log_mul (ne_of_gt hSpos) (ne_of_gt (Real.exp_pos x)), Real.log_exp]
      rw [rvLog, if_pos hSpos]
      simp only [rvSub, rvMap2, Option.some.injEq]
      ring

lemma rvLSE_some_inv (l : List RV) (b : ℝ) (h : rvLSE l = some b) :
    ∃ xs : List ℝ, l = xs.map some ∧ xs ≠ [] ∧
      b = Real.log ((xs.map Real.exp).sum) := by
  rw [rvLSE] at h
  cases hs : seqO l with
  | none => simp [hs] at h
  | some xs =>
      simp only [hs] at h
      by_cases hne : xs = []
      · rw [if_pos hne] at h; cases h
      · rw [if_neg hne] at h
        simp only [Option.some.injEq] at h
        exact ⟨xs, seqO_eq_some l xs hs, hne, h.symm⟩

/-- Log-sum-exp of values in `[lo, hi]` lies in `[log len + lo, log len + hi]`. -/
lemma rvLSE_bounds (l : List RV) (lo hi b : ℝ)
    (hb : ∀ x ∈ l, ∀ r, x = some r → lo ≤ r ∧ r ≤ hi) (h : rvLSE l = some b) :
    Real.log (l.length : ℝ) + lo ≤ b ∧ b ≤ Real.log (l.length : ℝ) + hi := by
  obtain ⟨xs, hl, hne, hbv⟩ := rvLSE_some_inv l b h
  subst hl
  have hxb : ∀ r ∈ xs, lo ≤ r ∧ r ≤ hi := fun r hr =>
    hb (some r) (List.mem_map_of_mem some hr) r rfl
  have hlen : (0 : ℝ) < (xs.length : ℝ) := by
    have : xs.length ≠ 0 := by
      simp only [ne_eq, List.length_eq_zero]
      exact hne
    positivity
  have hup : ((xs.map Real.exp).sum) ≤ (xs.length : ℝ) * Real.exp hi := by
    have := List.sum_le_card_nsmul (xs.map Real.exp) (Real.exp hi) (by
      intro r hr
      rw [List.mem_map] at hr
      obtain ⟨a, ha, rfl⟩ := hr
      exact Real.exp_le_exp.mpr (hxb a ha).2)
    simpa [nsmul_eq_mul] using this
  have hdown : (xs.length : ℝ) * Real.exp lo ≤ ((xs.map Real.exp).sum) := by
    have := List.card_nsmul_le_sum (xs.map Real.exp) (Real.exp lo) (by
      intro r hr
      rw [List.mem_map] at hr
      obtain ⟨a, ha, rfl⟩ := hr
      exact Real.exp_le_exp.mpr (hxb a ha).1)
    simpa [nsmul_eq_mul] using this
  have hpos : (0 : ℝ) < ((xs.map Real.exp).sum) :=
    lt_of_lt_of_le (by positivity) hdown
  subst hbv
  rw [List.length_map]
  constructor
  · calc Real.log (xs.length : ℝ) + lo
        = Real.log ((xs.length : ℝ) * Real.exp lo) := by
          rw [Real.log_mul (ne_of_gt hlen) (ne_of_gt (Real.exp_pos lo)), Real.log_exp]
      _ ≤ Real.log ((xs.map Real.exp).sum) := Real.log_le_log (by positivity) hdown
  · calc Real.log ((xs.map Real.exp).sum)
        ≤ Real.log ((xs.length : ℝ) * Real.exp hi) := Real.log_le_log hpos hup
      _ = Real.log (xs.length : ℝ) + hi := by
          rw [Real.log_mul (ne_of_gt hlen) (ne_of_gt (Real.exp_pos hi)), Real.log_exp]

lemma rvMap2_none_left (f : ℝ → ℝ → ℝ) (y : RV) : rvMap2 f none y = none := by
  cases y <;> rfl

lemma rvMap2_none_right (f : ℝ → ℝ → ℝ) (x : RV) : rvMap2 f x none = none := by
  cases x <;> rfl

lemma rvDiv_some (x y : ℝ) : rvDiv (some x) (some y) = if y = 0 then none else some (x / y) :=
  rfl

lemma rvDiv_none_left (y : RV) : rvDiv none y = none := by cases y <;> rfl

lemma rvSqrtPow_some (x : ℝ) : rvSqrtPow (some x) = if 0 ≤ x then some (Real.sqrt x) else none :=
  rfl

lemma rvSub_some (a b : ℝ) : rvSub (some a) (some b) = some (a - b) := rfl

lemma sumsq_elements_nonneg (l : List RV) :
    ∀ x ∈ l.map (rvMap (fun x => x ^ 2)), ∀ r, x = some r → 0 ≤ r := by
  intro x hx r hr
  rw [List.mem_map] at hx
  obtain ⟨y, hy, rfl⟩ := hx
  cases y with
  | none => simp [rvMap] at hr
  | some a =>
      simp only [rvMap, Option.map_some', Option.some.injEq] at hr
      subst hr
      positivity

/-- Scaling the residuals by `s` scales the sum of squares by `s^2`. -/
lemma sumsq_scale (l : List RV) (s : ℝ) :
    rvSum ((l.map (rvMap (fun x => x * s))).map (rvMap (fun x => x ^ 2)))
    = rvMap (fun t => s ^ 2 * t) (rvSum (l.map (rvMap (fun x => x ^ 2)))) := by
  induction l with
  | nil =>
      show some 0 = rvMap (fun t => s ^ 2 * t) (some 0)
      simp [rvMap]
  | cons x t ih =>
      simp only [List.map_cons, rvSum_cons]
      rw [ih]
      cases x with
      | none => simp [rvMap, rvAdd, rvMap2_none_left]
      | some a =>
          cases hts : rvSum (t.map (rvMap (fun x => x ^ 2))) with
          | none => simp [rvMap, rvAdd, rvMap2_none_right]
          | some w =>
              simp only [rvMap, Option.map_some', rvAdd, rvMap2, Option.some.injEq]
              ring

/-- The RMSE of residuals scaled by `s ≥ 0` is `s` times the RMSE of the
residuals (`sqrt(mean((d*s)^2)) = sqrt(mean(d^2)) * s`), including the
non-finite cases. -/
lemma rmse_scale (l : List RV) (s : ℝ) (hs : 0 ≤ s) :
    rvSqrtPow (rvMean ((l.map (rvMap (fun x => x * s))).map (rvMap (fun x => x ^ 2))))
    = rvMap (fun x => x * s) (rvSqrtPow (rvMean (l.map (rvMap (fun x => x ^ 2))))) := by
  rw [rvMean, rvMean, sumsq_scale]
  simp only [List.length_map]
  cases hu : rvSum (l.map (rvMap (fun x => x ^ 2))) with
  | none => simp [rvMap, rvDiv_none_left, rvSqrtPow]
  | some u =>
      have hu0 : 0 ≤ u := by
        have := rvSum_lower (l.map (rvMap (fun x => x ^ 2))) 0 u
          (sumsq_elements_nonneg l) hu
        simpa using this
      simp only [rvMap, Option.map_some']
      rw [rvDiv_some, rvDiv_some]
      by_cases hL : ((l.length : ℝ)) = 0
      · rw [if_pos hL, if_pos hL]
        rfl
      · rw [if_neg hL, if_neg hL]
        have hLpos : (0 : ℝ) < (l.length : ℝ) :=
          lt_of_le_of_ne (Nat.cast_nonneg _) (Ne.symm hL)
        have hq : 0 ≤ u / (l.length : ℝ) := by positivity
        have hq2 : 0 ≤ s ^ 2 * u / (l.length : ℝ) := by positivity
        rw [rvSqrtPow_some, rvSqrtPow_some, if_pos hq, if_pos hq2]
        simp only [Option.map_some', Option.some.injEq]
        rw [mul_div_assoc, Real.sqrt_mul (sq_nonneg s), Real.sqrt_sq hs]
        ring

/-- Every element of a clipped log-density array is a clipped value. -/
lemma clippedL_elems (Y mu sc : NDArray) (out : NDArray) (h : clippedL Y mu sc = some out) :
    ∀ x ∈ out.data, ∃ y, x = rvClip logEps log1mEps y := by
  rw [clippedL] at h
  cases he : ewiseRV3 normLogpdf Y mu sc with
  | none => rw [he] at h; cases h
  | some w =>
      rw [he] at h
      simp only [Option.map_some', Option.some.injEq] at h
      subst h
      intro x hx
      simp only [NDArray.clipA, List.mem_map] at hx
      obtain ⟨y, _, rfl⟩ := hx
      exact ⟨y, rfl⟩

/-! ### Concrete evaluation -/

/-- The standard-normal log-density at its mean, `-log(sqrt(2*pi))`, lies
strictly inside the clipping interval. -/
lemma neg_log_sqrt_two_pi_mem :
    logEps ≤ -Real.log (Real.sqrt (2 * Real.pi)) ∧
    -Real.log (Real.sqrt (2 * Real.pi)) ≤ log1mEps := by
  have h2pi_pos : (0 : ℝ) < 2 * Real.pi := by positivity
  have hsq_pos : (0 : ℝ) < Real.sqrt (2 * Real.pi) := Real.sqrt_pos.mpr h2pi_pos
  constructor
  · rw [logEps]
    have hs24 : Real.sqrt (1e24) = 1e12 := by
      rw [show (1e24 : ℝ) = (1e12) ^ 2 by norm_num, Real.sqrt_sq (by norm_num)]
    have h1 : Real.sqrt (2 * Real.pi) ≤ 1e12 := by
      calc Real.sqrt (2 * Real.pi) ≤ Real.sqrt 1e24 :=
            Real.sqrt_le_sqrt (by nlinarith [Real.pi_lt_315])
        _ = 1e12 := hs24
    have h2 : Real.log (Real.sqrt (2 * Real.pi)) ≤ Real.log 1e12 :=
      Real.log_le_log hsq_pos h1
    have h3 : Real.log (1e-12 : ℝ) = -Real.log 1e12 := by
      rw [show (1e-12 : ℝ) = (1e12)⁻¹ by norm_num, Real.log_inv]
    rw [h3]
    linarith
  · rw [log1mEps]
    have h2le : (2 : ℝ) ≤ Real.sqrt (2 * Real.pi) := by
      have h4 : Real.sqrt 4 ≤ Real.sqrt (2 * Real.pi) :=
        Real.sqrt_le_sqrt (by nlinarith [Real.pi_gt_three])
      have hs4 : Real.sqrt 4 = 2 := by
        rw [show (4 : ℝ) = 2 ^ 2 by norm_num, Real.sqrt_sq (by norm_num)]
      linarith
    have hlog2 : Real.log 2 ≤ Real.log (Real.sqrt (2 * Real.pi)) :=
      Real.log_le_log (by norm_num) h2le
    have hhalf : Real.log ((2 : ℝ)⁻¹) ≤ Real.log (1 - 1e-12) :=
      Real.log_le_log (by norm_num) (by norm_num)
    rw [Real.log_inv] at hhalf
    linarith

lemma rvMean_singleton (x : ℝ) : rvMean [some x] = some x := by
  rw [rvMean]
  show rvDiv (rvAdd (some x) (some 0)) (some ((1 : ℕ) : ℝ)) = some x
  rw [show rvAdd (some x) (some 0) = some (x + 0) from rfl, rvDiv_some]
  norm_num

lemma normLogpdf_some (y mu s : ℝ) : normLogpdf (some y) (some mu) (some s) =
    if 0 < s then
      some (-(((y - mu) / s) ^ 2) / 2 - Real.log (Real.sqrt (2 * Real.pi)) - Real.log s)
    else none := rfl

/-- The array `[[1.0]]` of shape `[1, 1]`. -/
def A1 : NDArray := NDArray.mk [1, 1] [some 1]

lemma A1_vAllNonneg : vAllNonneg A1 := by
  intro x hx
  rw [A1, List.mem_singleton] at hx
  exact ⟨1, hx, by norm_num⟩

lemma sqrtPow_one : rvSqrtPow ((some 1 : RV)) = some 1 := by
  rw [rvSqrtPow_some, if_pos (by norm_num : (0 : ℝ) ≤ 1), Real.sqrt_one]

lemma clip_pdf_one : rvClip logEps log1mEps (normLogpdf (some 1) (some 1) (some 1))
    = some (-Real.log (Real.sqrt (2 * Real.pi))) := by
  rw [normLogpdf_some, if_pos (by norm_num : (0 : ℝ) < 1)]
  have hval : -(((1 - 1) / 1 : ℝ) ^ 2) / 2 - Real.log (Real.sqrt (2 * Real.pi)) - Real.log 1
      = -Real.log (Real.sqrt (2 * Real.pi)) := by
    rw [Real.log_one]
    norm_num
  rw [hval]
  obtain ⟨hlo, hhi⟩ := neg_log_sqrt_two_pi_mem
  simp only [rvClip, rvMap, Option.map_some']
  rw [max_eq_right hlo, min_eq_right hhi]

/-- Full evaluation of the evaluator on the spec's concrete scenario
`mean = [[1.0]]`, `variance = [[1.0]]`, `Y_test = [[1.0]]`, `Y_std = 1`. -/
lemma run_A1_eval : run A1 A1 A1 1 = Except.ok (Metrics.mk
    (some (-Real.log (Real.sqrt (2 * Real.pi))))
    (some (-Real.log (Real.sqrt (2 * Real.pi))))
    (some 0) (some 0) (some 0) (some 0)) := by
  rw [run2_closed A1 A1 A1 1 1 1 rfl rfl rfl A1_vAllNonneg]
  refine congrArg Except.ok ?_
  have hm1 : rvMap (fun x => x * 1) ((some 1 : RV)) = some 1 := by
    simp [rvMap]
  have hd0 : rvSub (some 1) (some 1) = some 0 := by
    rw [rvSub_some]
    norm_num
  have habs0 : rvMap (fun x => |x|) ((some 0 : RV)) = some 0 := by
    simp [rvMap]
  have hsq0 : rvMap (fun x => x ^ 2) ((some 0 : RV)) = some 0 := by
    simp [rvMap]
  have hm0 : rvMap (fun x => x * 1) ((some 0 : RV)) = some 0 := by
    simp [rvMap]
  have hsp0 : rvSqrtPow ((some 0 : RV)) = some 0 := by
    rw [rvSqrtPow_some, if_pos (le_refl (0 : ℝ)), Real.sqrt_zero]
  simp only [show List.range (1 * 1 : Nat) = [0] from rfl, List.map_cons, List.map_nil,
    A1, List.getD_cons_zero, sqrtPow_one, hm1, clip_pdf_one, hd0, habs0, hsq0, hm0]
  rw [rvMean_singleton, rvMean_singleton, hsp0]

lemma sqrtPow_zero : rvSqrtPow ((some 0 : RV)) = some 0 := by
  rw [rvSqrtPow_some, if_pos (le_refl (0 : ℝ)), Real.sqrt_zero]

lemma rvMean_none_singleton : rvMean [none] = none := by
  rw [rvMean]
  show rvDiv (rvAdd none (some 0)) (some ((1 : ℕ) : ℝ)) = none
  rw [show rvAdd none (some 0) = none from rfl]
  exact rvDiv_none_left _

/-- The array `[[0.0]]` of shape `[1, 1]`. -/
def Z11 : NDArray := NDArray.mk [1, 1] [some 0]

/-- The array `[[1.0, 1.0]]` of shape `[1, 2]`. -/
def V12 : NDArray := NDArray.mk [1, 2] [some 1, some 1]

/-- The array `[[0.0, 0.0]]` of shape `[1, 2]`. -/
def Z12 : NDArray := NDArray.mk [1, 2] [some 0, some 0]

/-- The array `[[-0.1]]` of shape `[1, 1]`. -/
def VNeg : NDArray := NDArray.mk [1, 1] [some (-0.1)]

/-! ### Claim theorems -/

/-- C8: on the point prediction `mean = [[1.0]]`, `variance = [[1.0]]`,
`Y_test = [[1.0]]`, `Y_std = 1`, the evaluator returns `test_mae = 0`,
`test_rmse = 0` and `test_loglik = ln(1/sqrt(2*pi))` (with the unnormalized
metrics identical since `Y_std = 1`), and this log-density is unaffected by
clipping since it lies within `[ln(1e-12), ln(1 - 1e-12)]`. -/
theorem concrete_point_scenario :
    run A1 A1 A1 1 = Except.ok (Metrics.mk
      (some (Real.log ((Real.sqrt (2 * Real.pi))⁻¹)))
      (some (Real.log ((Real.sqrt (2 * Real.pi))⁻¹)))
      (some 0) (some 0) (some 0) (some 0)) ∧
    logEps ≤ Real.log ((Real.sqrt (2 * Real.pi))⁻¹) ∧
    Real.log ((Real.sqrt (2 * Real.pi))⁻¹) ≤ log1mEps := by
  rw [Real.log_inv]
  exact ⟨run_A1_eval, neg_log_sqrt_two_pi_mem.1, neg_log_sqrt_two_pi_mem.2⟩

/-- C7: every per-element value of a clipped log-density array (the only form
of log-density `run` feeds into an average or log-sum-exp reduction) lies in
`[ln(1e-12), ln(1 - 1e-12)]` whenever it is a finite number. -/
theorem logdensities_clipped_into_bounds (Y mu sc out : NDArray)
    (h : clippedL Y mu sc = some out) :
    ∀ x ∈ out.data, ∀ r, x = some r → logEps ≤ r ∧ r ≤ log1mEps := by
  intro x hx r hr
  obtain ⟨y, rfl⟩ := clippedL_elems Y mu sc out h x hx
  exact rvClip_some_bounds _ _ logEps_le_log1mEps y r hr

theorem logdensities_clipped_into_bounds_witness :
    logEps ≤ -Real.log (Real.sqrt (2 * Real.pi)) ∧
    -Real.log (Real.sqrt (2 * Real.pi)) ≤ log1mEps := by
  have h : clippedL A1 A1 A1.sqrtA = some (NDArray.mk [1, 1]
      [rvClip logEps log1mEps (normLogpdf (some 1) (some 1) (rvSqrtPow (some 1)))]) := rfl
  refine logdensities_clipped_into_bounds A1 A1 A1.sqrtA _ h
    (rvClip logEps log1mEps (normLogpdf (some 1) (some 1) (rvSqrtPow (some 1))))
    (List.mem_singleton.mpr rfl) (-Real.log (Real.sqrt (2 * Real.pi))) ?_
  rw [sqrtPow_one, clip_pdf_one]

/-- C6: the unnormalized RMSE equals the normalized RMSE multiplied by the
scalar `Y_std`, on every input and in both the point and the ensemble path
(each error outcome trivially agrees with itself). -/
theorem rmse_unnormalized_scaling (m v Y : NDArray) (Ystd : ℝ) (hs : 0 ≤ Ystd) :
    Except.map (fun r => r.test_rmse_unnormalized) (run m v Y Ystd)
    = Except.map (fun r => rvMap (fun x => x * Ystd) r.test_rmse) (run m v Y Ystd) := by
  unfold run
  by_cases c1 : m.shape.length = v.shape.length
  · rw [if_pos c1]
    by_cases c2 : m.shape.length = 2 ∨ m.shape.length = 3
    · rw [if_pos c2]
      by_cases c3 : vAllNonneg v
      · rw [if_pos c3]
        by_cases c4 : m.shape.length = 2
        · rw [if_pos c4]
          cases e1 : clippedL Y m v.sqrtA with
          | none => rfl
          | some l =>
              cases e2 : clippedL (Y.scaleA Ystd) (m.scaleA Ystd) ((v.sqrtA).scaleA Ystd) with
              | none => rfl
              | some lu =>
                  cases e3 : ewiseRV2 rvSub Y m with
                  | none => rfl
                  | some d =>
                      simp only [Except.map]
                      refine congrArg Except.ok ?_
                      simp only [NDArray.avg, NDArray.sqA, NDArray.scaleA]
                      exact rmse_scale d.data Ystd hs
        · rw [if_neg c4]
          cases e1 : seqO ((List.range (m.shape.headD 0)).map (fun n =>
              clippedL Y (m.slice3 n) ((v.slice3 n).sqrtA))) with
          | none => rfl
          | some ls =>
              cases e2 : seqO ((List.range (m.shape.headD 0)).map (fun n =>
                  clippedL (Y.scaleA Ystd) ((m.slice3 n).scaleA Ystd)
                    (((v.slice3 n).sqrtA).scaleA Ystd))) with
              | none => rfl
              | some lus =>
                  cases e3 : ewiseRV2 rvSub Y m.mean0 with
                  | none => rfl
                  | some d =>
                      simp only [Except.map]
                      refine congrArg Except.ok ?_
                      simp only [NDArray.avg, NDArray.sqA, NDArray.scaleA]
                      exact rmse_scale d.data Ystd hs
      · rw [if_neg c3]; rfl
    · rw [if_neg c2]; rfl
  · rw [if_neg c1]; rfl

theorem rmse_unnormalized_scaling_witness :
    Except.map (fun r => r.test_rmse_unnormalized) (run A1 A1 A1 1)
    = Except.map (fun r => rvMap (fun x => x * 1) r.test_rmse) (run A1 A1 A1 1) :=
  rmse_unnormalized_scaling A1 A1 A1 1 (by norm_num)

/-- C10: the evaluator does not validate `Y_std`: on any well-shaped input
with nonnegative variance — point prediction (rank 2) or ensemble prediction
(rank 3) alike — it returns metric values even when `Y_std ≤ 0` (violating the
data-model invariant `Y_std > 0`), rather than rejecting. -/
theorem ystd_not_validated (m v Y : NDArray) (Ystd : ℝ)
    (hvn : vAllNonneg v) (hstd : Ystd ≤ 0)
    (hcase : (∃ N D, m.shape = [N, D] ∧ v.shape = [N, D] ∧ Y.shape = [N, D]) ∨
      (∃ S N D, 1 ≤ S ∧ m.shape = [S, N, D] ∧ v.shape = [S, N, D] ∧ Y.shape = [N, D] ∧
        m.data.length = S * (N * D) ∧ v.data.length = S * (N * D))) :
    isOkE (run m v Y Ystd) := by
  rcases hcase with ⟨N, D, hm, hv, hY⟩ | ⟨S, N, D, hS, hm, hv, hY, hml, hvl⟩
  · rw [run2_closed m v Y Ystd N D hm hv hY hvn]
    trivial
  · rw [run3_closed m v Y Ystd S N D hm hv hY hml hvl hvn hS]
    trivial

/-- C2 (amended): the evaluator rejects with an assertion failure whenever the
ranks (numbers of dimensions) of mean and variance differ, or the rank is not
2 or 3, or some variance element is negative; no metric value is produced. -/
theorem rank_or_variance_asserts_reject (m v Y : NDArray) (Ystd : ℝ)
    (h : m.shape.length ≠ v.shape.length ∨ ¬(m.shape.length = 2 ∨ m.shape.length = 3) ∨
      ∃ r, some r ∈ v.data ∧ r < 0) :
    run m v Y Ystd = Except.error RunError.assertionError := by
  unfold run
  by_cases c1 : m.shape.length = v.shape.length
  · rw [if_pos c1]
    by_cases c2 : m.shape.length = 2 ∨ m.shape.length = 3
    · rw [if_pos c2]
      by_cases c3 : vAllNonneg v
      · exfalso
        rcases h with h | h | ⟨r, hmem, hneg⟩
        · exact h c1
        · exact h c2
        · obtain ⟨r2, heq, hge⟩ := c3 (some r) hmem
          rw [Option.some.injEq] at heq
          subst heq
          linarith
      · rw [if_neg c3]
    · rw [if_neg c2]
  · rw [if_neg c1]

theorem rank_or_variance_asserts_reject_witness :
    run A1 VNeg A1 1 = Except.error RunError.assertionError :=
  rank_or_variance_asserts_reject A1 VNeg A1 1 (Or.inr (Or.inr
    ⟨-0.1, List.mem_singleton.mpr rfl, by norm_num⟩))

/-- C2 (counterexample): a mean of shape `[1, 1]` and a variance of shape
`[1, 2]` have different shapes, yet the evaluator does not reject them — the
rank assertion only compares the numbers of dimensions, numpy broadcasting
succeeds and metrics are produced. -/
theorem shape_mismatch_not_rejected :
    Z11.shape ≠ V12.shape ∧ isOkE (run Z11 V12 Z12 1) := by
  refine ⟨by decide, ?_⟩
  have hvn : vAllNonneg V12 := by
    intro x hx
    rw [V12] at hx
    rcases List.mem_cons.mp hx with rfl | hx2
    · exact ⟨1, rfl, by norm_num⟩
    · rw [List.mem_singleton] at hx2
      exact ⟨1, hx2, by norm_num⟩
  unfold run
  rw [if_pos (by decide : Z11.shape.length = V12.shape.length),
    if_pos (Or.inl (by decide : Z11.shape.length = 2)), if_pos hvn,
    if_pos (by decide : Z11.shape.length = 2)]
  obtain ⟨w1, hw1⟩ : ∃ w, clippedL Z12 Z11 V12.sqrtA = some w := ⟨_, rfl⟩
  obtain ⟨w2, hw2⟩ : ∃ w, clippedL (Z12.scaleA 1) (Z11.scaleA 1) ((V12.sqrtA).scaleA 1)
      = some w := ⟨_, rfl⟩
  obtain ⟨w3, hw3⟩ : ∃ w, ewiseRV2 rvSub Z12 Z11 = some w := ⟨_, rfl⟩
  rw [hw1, hw2, hw3]
  trivial

/-- C3 (counterexample): a zero variance passes the `v >= 0` assertion, but
`scipy.stats.norm.logpdf` with `scale = 0` is NaN, so `test_loglik` is not a
finite number on `mean = [[0]]`, `variance = [[0]]`, `Y_test = [[0]]`. -/
theorem zero_variance_nonfinite_loglik :
    vAllNonneg Z11 ∧ Except.map Metrics.test_loglik (run Z11 Z11 Z11 1) = Except.ok none := by
  have hvn : vAllNonneg Z11 := by
    intro x hx
    rw [Z11, List.mem_singleton] at hx
    exact ⟨0, hx, le_refl 0⟩
  refine ⟨hvn, ?_⟩
  rw [run2_closed Z11 Z11 Z11 1 1 1 rfl rfl rfl hvn]
  simp only [Except.map]
  refine congrArg Except.ok ?_
  simp only [show List.range (1 * 1 : Nat) = [0] from rfl, List.map_cons, List.map_nil,
    Z11, List.getD_cons_zero, sqrtPow_zero]
  rw [show normLogpdf (some 0) (some 0) (some 0) = none by
    rw [normLogpdf_some, if_neg (lt_irrefl (0 : ℝ))]]
  rw [rvClip_none]
  exact rvMean_none_singleton

lemma getD_mem_of_lt (l : List RV) (k : Nat) (h : k < l.length) : l.getD k none ∈ l := by
  rw [List.getD_eq_getElem _ _ h]
  exact List.getElem_mem h

/-- The array `[[[1.0]]]` of shape `[1, 1, 1]`. -/
def E1 : NDArray := NDArray.mk [1, 1, 1] [some 1]

lemma E1_vAllNonneg : vAllNonneg E1 := by
  intro x hx
  rw [E1, List.mem_singleton] at hx
  exact ⟨1, hx, by norm_num⟩

/-- C1: on a valid ensemble prediction of shape `[S, N, D]`, the returned
`test_loglik` is exactly the arithmetic mean over the `N*D` elements of
(log-sum-exp of the `S` per-component clipped Gaussian log-densities of
`Y_test`, minus `log S`), and `test_loglik_unnormalized` is computed
identically from the de-normalized per-component clipped log-densities. -/
theorem ensemble_loglik_matches_spec (m v Y : NDArray) (Ystd : ℝ) (S N D : Nat)
    (hm : m.shape = [S, N, D]) (hv : v.shape = [S, N, D]) (hY : Y.shape = [N, D])
    (hml : m.data.length = S * (N * D)) (hvl : v.data.length = S * (N * D))
    (hvn : vAllNonneg v) (hS : 1 ≤ S) :
    Except.map (fun r => (r.test_loglik, r.test_loglik_unnormalized)) (run m v Y Ystd)
    = Except.ok (mixSpec m v Y S (N * D), mixSpecU m v Y Ystd S (N * D)) := by
  rw [run3_closed m v Y Ystd S N D hm hv hY hml hvl hvn hS]
  rfl

theorem ensemble_loglik_matches_spec_witness :
    Except.map (fun r => (r.test_loglik, r.test_loglik_unnormalized)) (run E1 E1 A1 1)
    = Except.ok (mixSpec E1 E1 A1 1 1, mixSpecU E1 E1 A1 1 1 1) :=
  ensemble_loglik_matches_spec E1 E1 A1 1 1 1 1 rfl rfl rfl rfl rfl
    E1_vAllNonneg (by norm_num)

/-- C4: an ensemble prediction with a single component (`S = 1`) yields the
same `test_loglik` and `test_loglik_unnormalized` as the point-prediction path
on the component itself, since log-sum-exp over one element minus `log 1` is
the identity. -/
theorem singleton_ensemble_matches_point (m v Y : NDArray) (Ystd : ℝ) (N D : Nat)
    (hm : m.shape = [1, N, D]) (hv : v.shape = [1, N, D]) (hY : Y.shape = [N, D])
    (hml : m.data.length = 1 * (N * D)) (hvl : v.data.length = 1 * (N * D))
    (hvn : vAllNonneg v) :
    Except.map (fun r => (r.test_loglik, r.test_loglik_unnormalized)) (run m v Y Ystd)
    = Except.map (fun r => (r.test_loglik, r.test_loglik_unnormalized))
        (run (m.slice3 0) (v.slice3 0) Y Ystd) := by
  have hmdata : (m.slice3 0).data = m.data := by
    simp only [NDArray.slice3, hm]
    rw [Nat.zero_mul, List.drop_zero]
    exact List.take_of_length_le (by rw [hml, prod_pair]; omega)
  have hvdata : (v.slice3 0).data = v.data := by
    simp only [NDArray.slice3, hv]
    rw [Nat.zero_mul, List.drop_zero]
    exact List.take_of_length_le (by rw [hvl, prod_pair]; omega)
  have hvn0 : vAllNonneg (v.slice3 0) := by
    intro x hx
    rw [hvdata] at hx
    exact hvn x hx
  rw [run3_closed m v Y Ystd 1 N D hm hv hY hml hvl hvn (le_refl 1),
    run2_closed (m.slice3 0) (v.slice3 0) Y Ystd N D
      (slice3_shape m 0 1 [N, D] hm) (slice3_shape v 0 1 [N, D] hv) hY hvn0]
  simp only [Except.map]
  refine congrArg Except.ok ?_
  refine congrArg₂ Prod.mk ?_ ?_
  · rw [mixSpec]
    refine congrArg rvMean (List.map_congr_left ?_)
    intro k _
    rw [show List.range 1 = [0] from rfl, List.map_cons, List.map_nil]
    rw [show ∀ c : RV, [c] = List.replicate 1 c from fun c => rfl]
    rw [lse_collapse 1 (le_refl 1)]
    rw [hmdata, hvdata]
    norm_num
  · rw [mixSpecU]
    refine congrArg rvMean (List.map_congr_left ?_)
    intro k _
    rw [show List.range 1 = [0] from rfl, List.map_cons, List.map_nil]
    rw [show ∀ c : RV, [c] = List.replicate 1 c from fun c => rfl]
    rw [lse_collapse 1 (le_refl 1)]
    rw [hmdata, hvdata]
    norm_num

theorem singleton_ensemble_matches_point_witness :
    Except.map (fun r => (r.test_loglik, r.test_loglik_unnormalized)) (run E1 E1 A1 1)
    = Except.map (fun r => (r.test_loglik, r.test_loglik_unnormalized))
        (run (E1.slice3 0) (E1.slice3 0) A1 1) :=
  singleton_ensemble_matches_point E1 E1 A1 1 1 1 rfl rfl rfl rfl rfl E1_vAllNonneg

lemma slice3_data_subset (a : NDArray) (n : Nat) : ∀ x ∈ (a.slice3 n).data, x ∈ a.data := by
  rcases a with ⟨sh, data⟩
  cases sh with
  | nil => intro x hx; exact hx
  | cons s rest =>
      intro x hx
      simp only [NDArray.slice3] at hx
      exact List.mem_of_mem_drop (List.mem_of_mem_take hx)

/-- The array `[[[1.0]], [[1.0]]]` of shape `[2, 1, 1]`: an ensemble of two
identical components. -/
def E2 : NDArray := NDArray.mk [2, 1, 1] [some 1, some 1]

lemma E2_vAllNonneg : vAllNonneg E2 := by
  intro x hx
  rw [E2] at hx
  rcases List.mem_cons.mp hx with rfl | hx2
  · exact ⟨1, rfl, by norm_num⟩
  · rw [List.mem_singleton] at hx2
    exact ⟨1, hx2, by norm_num⟩

/-- C5: when all `S` ensemble components have identical mean and variance
arrays, the mixture `test_loglik` and `test_loglik_unnormalized` equal the
single-component values produced by the point path on component 0, because
log-sum-exp of `S` identical values minus `log S` collapses to the value. -/
theorem identical_components_collapse (m v Y : NDArray) (Ystd : ℝ) (S N D : Nat)
    (hm : m.shape = [S, N, D]) (hv : v.shape = [S, N, D]) (hY : Y.shape = [N, D])
    (hml : m.data.length = S * (N * D)) (hvl : v.data.length = S * (N * D))
    (hvn : vAllNonneg v) (hS : 1 ≤ S)
    (hmrep : ∀ n, n < S → ∀ k, k < N * D →
      m.data.getD (n * (N * D) + k) none = m.data.getD k none)
    (hvrep : ∀ n, n < S → ∀ k, k < N * D →
      v.data.getD (n * (N * D) + k) none = v.data.getD k none) :
    Except.map (fun r => (r.test_loglik, r.test_loglik_unnormalized)) (run m v Y Ystd)
    = Except.map (fun r => (r.test_loglik, r.test_loglik_unnormalized))
        (run (m.slice3 0) (v.slice3 0) Y Ystd) := by
  have hml' : m.data.length = S * ([N, D] : List Nat).prod := by rw [prod_pair]; exact hml
  have hvl' : v.data.length = S * ([N, D] : List Nat).prod := by rw [prod_pair]; exact hvl
  have hvn0 : vAllNonneg (v.slice3 0) := fun x hx => hvn x (slice3_data_subset v 0 x hx)
  rw [run3_closed m v Y Ystd S N D hm hv hY hml hvl hvn hS,
    run2_closed (m.slice3 0) (v.slice3 0) Y Ystd N D
      (slice3_shape m 0 S [N, D] hm) (slice3_shape v 0 S [N, D] hv) hY hvn0]
  simp only [Except.map]
  refine congrArg Except.ok ?_
  refine congrArg₂ Prod.mk ?_ ?_
  · rw [mixSpec]
    refine congrArg rvMean (List.map_congr_left ?_)
    intro k hk
    rw [List.mem_range] at hk
    have hk' : k < ([N, D] : List Nat).prod := by rw [prod_pair]; exact hk
    have hconst : (List.range S).map (fun s => rvClip logEps log1mEps
        (normLogpdf (Y.data.getD k none) (m.data.getD (s * (N * D) + k) none)
          (rvSqrtPow (v.data.getD (s * (N * D) + k) none))))
        = (List.range S).map (fun _ => rvClip logEps log1mEps
        (normLogpdf (Y.data.getD k none) (m.data.getD k none)
          (rvSqrtPow (v.data.getD k none)))) := by
      refine List.map_congr_left ?_
      intro s hs
      rw [List.mem_range] at hs
      rw [hmrep s hs k hk, hvrep s hs k hk]
    rw [hconst, List.map_const', List.length_range, lse_collapse S hS]
    rw [slice3_getD m 0 S [N, D] hm hml' (by omega) k hk',
      slice3_getD v 0 S [N, D] hv hvl' (by omega) k hk']
    norm_num
  · rw [mixSpecU]
    refine congrArg rvMean (List.map_congr_left ?_)
    intro k hk
    rw [List.mem_range] at hk
    have hk' : k < ([N, D] : List Nat).prod := by rw [prod_pair]; exact hk
    have hconst : (List.range S).map (fun s => rvClip logEps log1mEps
        (normLogpdf (rvMap (fun x => x * Ystd) (Y.data.getD k none))
          (rvMap (fun x => x * Ystd) (m.data.getD (s * (N * D) + k) none))
          (rvMap (fun x => x * Ystd) (rvSqrtPow (v.data.getD (s * (N * D) + k) none)))))
        = (List.range S).map (fun _ => rvClip logEps log1mEps
        (normLogpdf (rvMap (fun x => x * Ystd) (Y.data.getD k none))
          (rvMap (fun x => x * Ystd) (m.data.getD k none))
          (rvMap (fun x => x * Ystd) (rvSqrtPow (v.data.getD k none))))) := by
      refine List.map_congr_left ?_
      intro s hs
      rw [List.mem_range] at hs
      rw [hmrep s hs k hk, hvrep s hs k hk]
    rw [hconst, List.map_const', List.length_range, lse_collapse S hS]
    rw [slice3_getD m 0 S [N, D] hm hml' (by omega) k hk',
      slice3_getD v 0 S [N, D] hv hvl' (by omega) k hk']
    norm_num

theorem identical_components_collapse_witness :
    Except.map (fun r => (r.test_loglik, r.test_loglik_unnormalized)) (run E2 E2 A1 1)
    = Except.map (fun r => (r.test_loglik, r.test_loglik_unnormalized))
        (run (E2.slice3 0) (E2.slice3 0) A1 1) :=
  identical_components_collapse E2 E2 A1 1 2 1 1 rfl rfl rfl rfl rfl E2_vAllNonneg
    (by norm_num)
    (by
      intro n hn k hk
      have hk0 : k = 0 := by omega
      subst hk0
      interval_cases n <;> rfl)
    (by
      intro n hn k hk
      have hk0 : k = 0 := by omega
      subst hk0
      interval_cases n <;> rfl)

lemma idx_lt (s S P k : Nat) (hs : s < S) (hk : k < P) : s * P + k < S * P :=
  calc s * P + k < s * P + P := Nat.add_lt_add_left hk _
    _ = (s + 1) * P := by ring
    _ ≤ S * P := Nat.mul_le_mul_right P (Nat.succ_le_of_lt hs)

lemma rvLog_some (x : ℝ) : rvLog (some x) = if 0 < x then some (Real.log x) else none := rfl

lemma rvSub_some_inv (p q : RV) (a : ℝ) (h : rvSub p q = some a) :
    ∃ b c, p = some b ∧ q = some c ∧ a = b - c := by
  cases p with
  | none => rw [show rvSub none q = none from by cases q <;> rfl] at h; cases h
  | some b =>
      cases q with
      | none => rw [show rvSub (some b) none = none from rfl] at h; cases h
      | some c =>
          rw [rvSub_some, Option.some.injEq] at h
          exact ⟨b, c, rfl, rfl, h.symm⟩

lemma seqO_all_some {α : Type} (l : List (Option α)) (h : ∀ x ∈ l, ∃ r, x = some r) :
    ∃ xs, seqO l = some xs := by
  induction l with
  | nil => exact ⟨[], rfl⟩
  | cons x t ih =>
      obtain ⟨a, ha⟩ := h x (List.mem_cons_self x t)
      obtain ⟨xs, hxs⟩ := ih (fun y hy => h y (List.mem_cons_of_mem x hy))
      subst ha
      exact ⟨a :: xs, by simp [seqO, hxs]⟩

lemma rvLSE_some_of_all (l : List RV) (hne : l ≠ []) (h : ∀ x ∈ l, ∃ r, x = some r) :
    ∃ b, rvLSE l = some b := by
  obtain ⟨xs, hxs⟩ := seqO_all_some l h
  have hxs_ne : xs ≠ [] := by
    intro hnil
    subst hnil
    have h2 := seqO_eq_some l [] hxs
    simp only [List.map_nil] at h2
    exact hne h2
  refine ⟨Real.log ((xs.map Real.exp).sum), ?_⟩
  rw [rvLSE]
  simp only [hxs]
  rw [if_neg hxs_ne]

lemma mean_of_map_some (P : Nat) (g : Nat → RV) (hP : 1 ≤ P)
    (hg : ∀ k, k < P → ∃ r, g k = some r) :
    ∃ t, rvMean ((List.range P).map g) = some t := by
  refine rvMean_some _ ?_ ?_
  · intro hnil
    have h2 := congrArg List.length hnil
    simp only [List.length_map, List.length_range, List.length_nil] at h2
    omega
  · intro x hx
    rw [List.mem_map] at hx
    obtain ⟨k, hk, rfl⟩ := hx
    exact hg k (List.mem_range.mp hk)

lemma mean_map_some_nonneg (P : Nat) (g : Nat → RV) (t : ℝ)
    (hg : ∀ k, k < P → ∀ r, g k = some r → 0 ≤ r)
    (h : rvMean ((List.range P).map g) = some t) : 0 ≤ t := by
  refine rvMean_nonneg _ t ?_ h
  intro x hx r hr
  rw [List.mem_map] at hx
  obtain ⟨k, hk, rfl⟩ := hx
  exact hg k (List.mem_range.mp hk) r hr

lemma sqrtPow_mean_sq_some (P : Nat) (g : Nat → RV) (hP : 1 ≤ P)
    (hg : ∀ k, k < P → ∃ r, g k = some r) :
    ∃ t, rvSqrtPow (rvMean ((List.range P).map (fun k => rvMap (fun x => x ^ 2) (g k))))
      = some t := by
  obtain ⟨t, ht⟩ := mean_of_map_some P (fun k => rvMap (fun x => x ^ 2) (g k)) hP (by
    intro k hk
    obtain ⟨r, hr⟩ := hg k hk
    simp only []
    rw [hr]
    exact ⟨r ^ 2, rfl⟩)
  have ht0 : 0 ≤ t := by
    refine mean_map_some_nonneg P _ t ?_ ht
    intro k hk r hr
    obtain ⟨a, ha⟩ := hg k hk
    rw [ha] at hr
    simp only [rvMap, Option.map_some', Option.some.injEq] at hr
    subst hr
    positivity
  rw [ht, rvSqrtPow_some, if_pos ht0]
  exact ⟨_, rfl⟩

/-- C3 (amended): on a valid input whose variance elements are strictly
positive (rather than merely nonnegative), whose arrays are nonempty and whose
entries and `Y_std > 0` are finite numbers, the evaluation returns a record
with exactly the six metric fields, all of them finite, in both the point and
the ensemble path. -/
theorem metrics_finite_on_positive_variance (m v Y : NDArray) (Ystd : ℝ)
    (hstd : 0 < Ystd)
    (hYfin : ∀ x ∈ Y.data, ∃ r, x = some r)
    (hmfin : ∀ x ∈ m.data, ∃ r, x = some r)
    (hvpos : ∀ x ∈ v.data, ∃ r, x = some r ∧ 0 < r)
    (hcase : (∃ N D, 1 ≤ N * D ∧ m.shape = [N, D] ∧ v.shape = [N, D] ∧ Y.shape = [N, D] ∧
        m.data.length = N * D ∧ v.data.length = N * D ∧ Y.data.length = N * D) ∨
      (∃ S N D, 1 ≤ S ∧ 1 ≤ N * D ∧ m.shape = [S, N, D] ∧ v.shape = [S, N, D] ∧
        Y.shape = [N, D] ∧ m.data.length = S * (N * D) ∧ v.data.length = S * (N * D) ∧
        Y.data.length = N * D)) :
    metricsAllFinite (run m v Y Ystd) := by
  have hvn : vAllNonneg v := by
    intro x hx
    obtain ⟨r, hr, hrp⟩ := hvpos x hx
    exact ⟨r, hr, le_of_lt hrp⟩
  rcases hcase with ⟨N, D, hND, hm, hv, hY, hml, hvl, hYl⟩ |
    ⟨S, N, D, hS, hND, hm, hv, hY, hml, hvl, hYl⟩
  · have hgY : ∀ k, k < N * D → ∃ r, Y.data.getD k none = some r := fun k hk =>
      hYfin _ (getD_mem_of_lt Y.data k (by rw [hYl]; exact hk))
    have hgm : ∀ k, k < N * D → ∃ r, m.data.getD k none = some r := fun k hk =>
      hmfin _ (getD_mem_of_lt m.data k (by rw [hml]; exact hk))
    have hgv : ∀ k, k < N * D → ∃ r, v.data.getD k none = some r ∧ 0 < r := fun k hk =>
      hvpos _ (getD_mem_of_lt v.data k (by rw [hvl]; exact hk))
    have hsub : ∀ k, k < N * D →
        ∃ r, rvSub (Y.data.getD k none) (m.data.getD k none) = some r := by
      intro k hk
      obtain ⟨y, hy⟩ := hgY k hk
      obtain ⟨mu, hmu⟩ := hgm k hk
      rw [hy, hmu, rvSub_some]
      exact ⟨_, rfl⟩
    rw [run2_closed m v Y Ystd N D hm hv hY hvn]
    simp only [metricsAllFinite]
    refine ⟨?_, ?_, ?_, ?_, ?_, ?_⟩
    · rw [Option.isSome_iff_exists]
      refine mean_of_map_some (N * D) _ hND ?_
      intro k hk
      obtain ⟨y, hy⟩ := hgY k hk
      obtain ⟨mu, hmu⟩ := hgm k hk
      obtain ⟨vv, hvv, hvvp⟩ := hgv k hk
      rw [hy, hmu, hvv, rvSqrtPow_some, if_pos (le_of_lt hvvp), normLogpdf_some,
        if_pos (Real.sqrt_pos.mpr hvvp)]
      exact ⟨_, rfl⟩
    · rw [Option.isSome_iff_exists]
      refine mean_of_map_some (N * D) _ hND ?_
      intro k hk
      obtain ⟨y, hy⟩ := hgY k hk
      obtain ⟨mu, hmu⟩ := hgm k hk
      obtain ⟨vv, hvv, hvvp⟩ := hgv k hk
      rw [hy, hmu, hvv, rvSqrtPow_some, if_pos (le_of_lt hvvp)]
      simp only [rvMap, Option.map_some']
      rw [normLogpdf_some, if_pos (mul_pos (Real.sqrt_pos.mpr hvvp) hstd)]
      exact ⟨_, rfl⟩
    · rw [Option.isSome_iff_exists]
      refine mean_of_map_some (N * D) _ hND ?_
      intro k hk
      obtain ⟨r, hr⟩ := hsub k hk
      rw [hr]
      exact ⟨_, rfl⟩
    · rw [Option.isSome_iff_exists]
      refine mean_of_map_some (N * D) _ hND ?_
      intro k hk
      obtain ⟨r, hr⟩ := hsub k hk
      rw [hr]
      exact ⟨_, rfl⟩
    · rw [Option.isSome_iff_exists]
      refine sqrtPow_mean_sq_some (N * D) _ hND hsub
    · rw [Option.isSome_iff_exists]
      refine sqrtPow_mean_sq_some (N * D)
        (fun k => rvMap (fun x => x * Ystd)
          (rvSub (Y.data.getD k none) (m.data.getD k none))) hND ?_
      intro k hk
      obtain ⟨r, hr⟩ := hsub k hk
      simp only []
      rw [hr]
      exact ⟨_, rfl⟩
  · have hSpos : (0 : ℝ) < (S : ℝ) := by exact_mod_cast hS
    have hgY : ∀ k, k < N * D → ∃ r, Y.data.getD k none = some r := fun k hk =>
      hYfin _ (getD_mem_of_lt Y.data k (by rw [hYl]; exact hk))
    have hgm : ∀ s k, s < S → k < N * D →
        ∃ r, m.data.getD (s * (N * D) + k) none = some r := fun s k hs hk =>
      hmfin _ (getD_mem_of_lt m.data _ (by rw [hml]; exact idx_lt s S (N * D) k hs hk))
    have hgv : ∀ s k, s < S → k < N * D →
        ∃ r, v.data.getD (s * (N * D) + k) none = some r ∧ 0 < r := fun s k hs hk =>
      hvpos _ (getD_mem_of_lt v.data _ (by rw [hvl]; exact idx_lt s S (N * D) k hs hk))
    have hdiv : ∀ k, k < N * D → ∃ r, rvDiv (rvSum ((List.range S).map (fun n =>
        m.data.getD (n * (N * D) + k) none))) (some (S : ℝ)) = some r := by
      intro k hk
      obtain ⟨u, hu⟩ := rvSum_all_some _ (by
        intro x hx
        rw [List.mem_map] at hx
        obtain ⟨n, hn, rfl⟩ := hx
        exact hgm n k (List.mem_range.mp hn) hk)
      rw [hu, rvDiv_some, if_neg (ne_of_gt hSpos)]
      exact ⟨_, rfl⟩
    have hsub : ∀ k, k < N * D → ∃ r, rvSub (Y.data.getD k none)
        (rvDiv (rvSum ((List.range S).map (fun n =>
          m.data.getD (n * (N * D) + k) none))) (some (S : ℝ))) = some r := by
      intro k hk
      obtain ⟨y, hy⟩ := hgY k hk
      obtain ⟨q, hq⟩ := hdiv k hk
      rw [hy, hq, rvSub_some]
      exact ⟨_, rfl⟩
    have hlseN : ∀ k, k < N * D → ∃ b, rvLSE ((List.range S).map (fun s =>
        rvClip logEps log1mEps (normLogpdf (Y.data.getD k none)
          (m.data.getD (s * (N * D) + k) none)
          (rvSqrtPow (v.data.getD (s * (N * D) + k) none))))) = some b := by
      intro k hk
      refine rvLSE_some_of_all _ ?_ ?_
      · intro hnil
        have h2 := congrArg List.length hnil
        simp only [List.length_map, List.length_range, List.length_nil] at h2
        omega
      · intro x hx
        rw [List.mem_map] at hx
        obtain ⟨s, hs, rfl⟩ := hx
        rw [List.mem_range] at hs
        obtain ⟨y, hy⟩ := hgY k hk
        obtain ⟨mu, hmu⟩ := hgm s k hs hk
        obtain ⟨vv, hvv, hvvp⟩ := hgv s k hs hk
        rw [hy, hmu, hvv, rvSqrtPow_some, if_pos (le_of_lt hvvp), normLogpdf_some,
          if_pos (Real.sqrt_pos.mpr hvvp)]
        exact ⟨_, rfl⟩
    have hlseU : ∀ k, k < N * D → ∃ b, rvLSE ((List.range S).map (fun s =>
        rvClip logEps log1mEps (normLogpdf
          (rvMap (fun x => x * Ystd) (Y.data.getD k none))
          (rvMap (fun x => x * Ystd) (m.data.getD (s * (N * D) + k) none))
          (rvMap (fun x => x * Ystd)
            (rvSqrtPow (v.data.getD (s * (N * D) + k) none)))))) = some b := by
      intro k hk
      refine rvLSE_some_of_all _ ?_ ?_
      · intro hnil
        have h2 := congrArg List.length hnil
        simp only [List.length_map, List.length_range, List.length_nil] at h2
        omega
      · intro x hx
        rw [List.mem_map] at hx
        obtain ⟨s, hs, rfl⟩ := hx
        rw [List.mem_range] at hs
        obtain ⟨y, hy⟩ := hgY k hk
        obtain ⟨mu, hmu⟩ := hgm s k hs hk
        obtain ⟨vv, hvv, hvvp⟩ := hgv s k hs hk
        rw [hy, hmu, hvv, rvSqrtPow_some, if_pos (le_of_lt hvvp)]
        simp only [rvMap, Option.map_some']
        rw [normLogpdf_some, if_pos (mul_pos (Real.sqrt_pos.mpr hvvp) hstd)]
        exact ⟨_, rfl⟩
    rw [run3_closed m v Y Ystd S N D hm hv hY hml hvl hvn hS]
    simp only [metricsAllFinite]
    refine ⟨?_, ?_, ?_, ?_, ?_, ?_⟩
    · rw [mixSpec, Option.isSome_iff_exists]
      refine mean_of_map_some (N * D) _ hND ?_
      intro k hk
      obtain ⟨b, hb⟩ := hlseN k hk
      rw [hb, rvLog_some, if_pos hSpos, rvSub_some]
      exact ⟨_, rfl⟩
    · rw [mixSpecU, Option.isSome_iff_exists]
      refine mean_of_map_some (N * D) _ hND ?_
      intro k hk
      obtain ⟨b, hb⟩ := hlseU k hk
      rw [hb, rvLog_some, if_pos hSpos, rvSub_some]
      exact ⟨_, rfl⟩
    · rw [Option.isSome_iff_exists]
      refine mean_of_map_some (N * D) _ hND ?_
      intro k hk
      obtain ⟨r, hr⟩ := hsub k hk
      rw [hr]
      exact ⟨_, rfl⟩
    · rw [Option.isSome_iff_exists]
      refine mean_of_map_some (N * D) _ hND ?_
      intro k hk
      obtain ⟨r, hr⟩ := hsub k hk
      rw [hr]
      exact ⟨_, rfl⟩
    · rw [Option.isSome_iff_exists]
      refine sqrtPow_mean_sq_some (N * D) _ hND hsub
    · rw [Option.isSome_iff_exists]
      refine sqrtPow_mean_sq_some (N * D)
        (fun k => rvMap (fun x => x * Ystd) (rvSub (Y.data.getD k none)
          (rvDiv (rvSum ((List.range S).map (fun n =>
            m.data.getD (n * (N * D) + k) none))) (some (S : ℝ))))) hND ?_
      intro k hk
      obtain ⟨r, hr⟩ := hsub k hk
      simp only []
      rw [hr]
      exact ⟨_, rfl⟩

theorem metrics_finite_on_positive_variance_witness :
    metricsAllFinite (run A1 A1 A1 1) :=
  metrics_finite_on_positive_variance A1 A1 A1 1 (by norm_num)
    (fun x hx => ⟨1, by rwa [A1, List.mem_singleton] at hx⟩)
    (fun x hx => ⟨1, by rwa [A1, List.mem_singleton] at hx⟩)
    (fun x hx => ⟨1, by rwa [A1, List.mem_singleton] at hx, by norm_num⟩)
    (Or.inl ⟨1, 1, by norm_num, rfl, rfl, rfl, rfl, rfl, rfl⟩)

/-- The mean of (log-sum-exp of clipped stacks minus `log S`) stays within the
clipping interval whenever it is finite. -/
lemma lse_avg_bounds (cls : List NDArray) (Sn : Nat)
    (hlen : cls.length = Sn)
    (hclip : ∀ arr ∈ cls, ∀ x ∈ arr.data, ∃ y, x = rvClip logEps log1mEps y)
    (t : ℝ)
    (ht : rvMean ((lseStack cls).data.map (fun z => rvSub z (rvLog (some (Sn : ℝ)))))
      = some t) :
    logEps ≤ t ∧ t ≤ log1mEps := by
  refine rvMean_bounds _ logEps log1mEps t ?_ ht
  intro x hx a ha
  rw [List.mem_map] at hx
  obtain ⟨z, hz, rfl⟩ := hx
  obtain ⟨b, c, hb, hc, rfl⟩ := rvSub_some_inv z (rvLog (some (Sn : ℝ))) a ha
  rw [rvLog_some] at hc
  by_cases hSpos : (0 : ℝ) < (Sn : ℝ)
  case neg => rw [if_neg hSpos] at hc; cases hc
  rw [if_pos hSpos, Option.some.injEq] at hc
  subst hc
  simp only [lseStack, List.mem_map] at hz
  obtain ⟨k, hkmem, hzeq⟩ := hz
  rw [← hzeq] at hb
  have hbound := rvLSE_bounds (cls.map (fun arr => arr.data.getD k none))
    logEps log1mEps b ?_ hb
  · rw [List.length_map, hlen] at hbound
    constructor
    · linarith [hbound.1]
    · linarith [hbound.2]
  · intro x2 hx2 rr hrr
    rw [List.mem_map] at hx2
    obtain ⟨arr, harr, rfl⟩ := hx2
    by_cases hklen : k < arr.data.length
    · obtain ⟨y, hy⟩ := hclip arr harr _ (getD_mem_of_lt arr.data k hklen)
      rw [hy] at hrr
      exact rvClip_some_bounds _ _ logEps_le_log1mEps y rr hrr
    · rw [List.getD_eq_default _ _ (by omega)] at hrr
      cases hrr

/-- C9: whenever the evaluator returns and `test_loglik` (respectively
`test_loglik_unnormalized`) is a finite number, that value lies within the
clipping interval `[ln(1e-12), ln(1 - 1e-12)]`, in both the point and the
ensemble path: an arithmetic mean of clipped values stays in the clip bounds,
and log-sum-exp of `S` clipped values minus `log S` also stays in them. -/
theorem loglik_within_clip_bounds (m v Y : NDArray) (Ystd : ℝ) (r : Metrics)
    (h : run m v Y Ystd = Except.ok r) :
    (∀ t, r.test_loglik = some t → logEps ≤ t ∧ t ≤ log1mEps) ∧
    (∀ t, r.test_loglik_unnormalized = some t → logEps ≤ t ∧ t ≤ log1mEps) := by
  unfold run at h
  by_cases c1 : m.shape.length = v.shape.length
  case neg => rw [if_neg c1] at h; cases h
  rw [if_pos c1] at h
  by_cases c2 : m.shape.length = 2 ∨ m.shape.length = 3
  case neg => rw [if_neg c2] at h; cases h
  rw [if_pos c2] at h
  by_cases c3 : vAllNonneg v
  case neg => rw [if_neg c3] at h; cases h
  rw [if_pos c3] at h
  by_cases c4 : m.shape.length = 2
  · rw [if_pos c4] at h
    cases e1 : clippedL Y m v.sqrtA with
    | none => rw [e1] at h; exact Except.noConfusion h
    | some l =>
        rw [e1] at h
        cases e2 : clippedL (Y.scaleA Ystd) (m.scaleA Ystd) ((v.sqrtA).scaleA Ystd) with
        | none => rw [e2] at h; exact Except.noConfusion h
        | some lu =>
            rw [e2] at h
            cases e3 : ewiseRV2 rvSub Y m with
            | none => rw [e3] at h; exact Except.noConfusion h
            | some d =>
                rw [e3] at h
                injection h with h2
                subst h2
                constructor
                · intro t ht
                  refine rvMean_bounds l.data logEps log1mEps t ?_ ht
                  intro x hx a ha
                  obtain ⟨y, rfl⟩ := clippedL_elems Y m v.sqrtA l e1 x hx
                  exact rvClip_some_bounds _ _ logEps_le_log1mEps y a ha
                · intro t ht
                  refine rvMean_bounds lu.data logEps log1mEps t ?_ ht
                  intro x hx a ha
                  obtain ⟨y, rfl⟩ := clippedL_elems _ _ _ lu e2 x hx
                  exact rvClip_some_bounds _ _ logEps_le_log1mEps y a ha
  · rw [if_neg c4] at h
    cases e1 : seqO ((List.range (m.shape.headD 0)).map (fun n =>
        clippedL Y (m.slice3 n) ((v.slice3 n).sqrtA))) with
    | none => rw [e1] at h; exact Except.noConfusion h
    | some ls =>
        rw [e1] at h
        cases e2 : seqO ((List.range (m.shape.headD 0)).map (fun n =>
            clippedL (Y.scaleA Ystd) ((m.slice3 n).scaleA Ystd)
              (((v.slice3 n).sqrtA).scaleA Ystd))) with
        | none => rw [e2] at h; exact Except.noConfusion h
        | some lus =>
            rw [e2] at h
            cases e3 : ewiseRV2 rvSub Y m.mean0 with
            | none => rw [e3] at h; exact Except.noConfusion h
            | some d =>
                rw [e3] at h
                injection h with h2
                subst h2
                have hmap1 := seqO_eq_some _ ls e1
                have hmap2 := seqO_eq_some _ lus e2
                have hlen1 : ls.length = m.shape.headD 0 := by
                  have h3 := congrArg List.length hmap1
                  simp only [List.length_map, List.length_range] at h3
                  omega
                have hlen2 : lus.length = m.shape.headD 0 := by
                  have h3 := congrArg List.length hmap2
                  simp only [List.length_map, List.length_range] at h3
                  omega
                constructor
                · intro t ht
                  refine lse_avg_bounds ls (m.shape.headD 0) hlen1 ?_ t ht
                  intro arr harr x hx
                  have hmem : some arr ∈ (List.range (m.shape.headD 0)).map (fun n =>
                      clippedL Y (m.slice3 n) ((v.slice3 n).sqrtA)) := by
                    rw [hmap1]
                    exact List.mem_map_of_mem some harr
                  rw [List.mem_map] at hmem
                  obtain ⟨n, _, heq⟩ := hmem
                  exact clippedL_elems _ _ _ arr heq x hx
                · intro t ht
                  refine lse_avg_bounds lus (m.shape.headD 0) hlen2 ?_ t ht
                  intro arr harr x hx
                  have hmem : some arr ∈ (List.range (m.shape.headD 0)).map (fun n =>
                      clippedL (Y.scaleA Ystd) ((m.slice3 n).scaleA Ystd)
                        (((v.slice3 n).sqrtA).scaleA Ystd)) := by
                    rw [hmap2]
                    exact List.mem_map_of_mem some harr
                  rw [List.mem_map] at hmem
                  obtain ⟨n, _, heq⟩ := hmem
                  exact clippedL_elems _ _ _ arr heq x hx

theorem loglik_within_clip_bounds_witness :
    (logEps ≤ -Real.log (Real.sqrt (2 * Real.pi)) ∧
      -Real.log (Real.sqrt (2 * Real.pi)) ≤ log1mEps) ∧
    (logEps ≤ -Real.log (Real.sqrt (2 * Real.pi)) ∧
      -Real.log (Real.sqrt (2 * Real.pi)) ≤ log1mEps) := by
  have h := loglik_within_clip_bounds A1 A1 A1 1 _ run_A1_eval
  exact ⟨h.1 _ rfl, h.2 _ rfl⟩

theorem ystd_not_validated_witness :
    isOkE (run A1 A1 A1 (-1)) ∧ isOkE (run E1 E1 A1 (-1)) :=
  ⟨ystd_not_validated A1 A1 A1 (-1) A1_vAllNonneg (by norm_num)
      (Or.inl ⟨1, 1, rfl, rfl, rfl⟩),
    ystd_not_validated E1 E1 A1 (-1) E1_vAllNonneg (by norm_num)
      (Or.inr ⟨1, 1, 1, by norm_num, rfl, rfl, rfl, rfl, rfl⟩)⟩
